import Mathlib

/-! # ydb-go-sdk: connection cluster core

A shallow embedding of the endpoint diff, the cluster index operations, the
round-robin test balancer, the incoming-metadata callback chain and the connect
options, together with the properties stated for them.

Conventions
* Go callbacks that mutate captured variables are state transformers `σ → σ`.
* Go `int` is the 64-bit two's-complement integer; arithmetic that can leave the
  range is wrapped explicitly (`wrapInt`).
* A Go panic is the `Except.error` outcome.
* Interface and function values handed in by a caller (contexts, callbacks) are proper values;
  `nil` is modelled where the code itself produces or tests it (the connection returned by
  `Next`, the pointers and errors of the connect options).
* Pointers the code writes through are addresses into an explicit heap.
-/

namespace Ydb

/-! ## Endpoints and their identity -/

/-- Endpoint identity `cluster.Addr{addr, port}`: the key of the cluster index. -/
structure Addr where
  addr : String
  port : Nat
deriving DecidableEq, Repr

/-- Endpoint record `cluster.Endpoint{Host, Port, LoadFactor, Local}` as used by the tests.
`LoadFactor` is a `float32` in the source; it is only stored and copied by the code
modelled here, so it is carried as an uninterpreted number. -/
structure Endpoint where
  Host : String
  Port : Nat
  LoadFactor : Nat := 0
  Local : Bool := false
deriving DecidableEq, Repr

/-- Identity `(host, port)` of an endpoint. -/
def Endpoint.Addr (e : Endpoint) : Addr := ⟨e.Host, e.Port⟩

/-- Modelled from the spec: the comparison behind "sorted by `(host, port)`"; the source of
`SortEndpoints` / `DiffEndpoints` is not among the files. Hosts are compared
lexicographically, ties are broken by the port; `LoadFactor` and `Local` are not looked at. -/
def compareEndpoints (a b : Endpoint) : Ordering :=
  if a.Host < b.Host then .lt
  else if b.Host < a.Host then .gt
  else if a.Port < b.Port then .lt
  else if b.Port < a.Port then .gt
  else .eq

/-- One callback invocation of the diff: which callback, and with which `(i, j)`. -/
inductive DiffCall where
  | eq (i j : Nat)
  | add (i j : Nat)
  | del (i j : Nat)
deriving DecidableEq, Repr

/-- Modelled from the spec: the merge-walk of section 4.E ("a merge-walk emitting one of three
callbacks per step: `equal(i,j)`, `added(_, j)`, `removed(i, _)`"); `DiffEndpoints` itself is
not among the source files. `i` and `j` are the cursors into `curr` and `next`; the lists are
the not yet visited suffixes `curr[i:]` and `next[j:]`. -/
def diffWalk : List Endpoint → List Endpoint → Nat → Nat → List DiffCall
  | [], [], _, _ => []
  | _ :: as, [], i, j => .del i j :: diffWalk as [] (i + 1) j
  | [], _ :: bs, i, j => .add i j :: diffWalk [] bs i (j + 1)
  | a :: as, b :: bs, i, j =>
    match compareEndpoints a b with
    | .lt => .del i j :: diffWalk as (b :: bs) (i + 1) j
    | .gt => .add i j :: diffWalk (a :: as) bs i (j + 1)
    | .eq => .eq i j :: diffWalk as bs (i + 1) (j + 1)
termination_by curr next => curr.length + next.length

/-- Invoke the callback named by a `DiffCall` on the caller's state. -/
def DiffCall.fire {σ : Type} (eq add del : Nat → Nat → σ → σ) (s : σ) : DiffCall → σ
  | .eq i j => eq i j s
  | .add i j => add i j s
  | .del i j => del i j s

/-- Modelled from the spec: `DiffEndpoints(curr, next, eq, add, del)`, called by the tests but
not among the source files. The callbacks of the merge-walk are fired in order on the
caller's state. -/
def DiffEndpoints {σ : Type} (curr next : List Endpoint) (eq add del : Nat → Nat → σ → σ)
    (s : σ) : σ :=
  (diffWalk curr next 0 0).foldl (DiffCall.fire eq add del) s

/-- The three counters `eq, add, del := 0, 0, 0` of `TestDiffEndpoint`. -/
structure Counters where
  eq : Nat
  add : Nat
  del : Nat
deriving DecidableEq, Repr

/-- The run of `TestDiffEndpoint`: `DiffEndpoints` with the callbacks `eq++`, `add++`, `del++`. -/
def countCalls (curr next : List Endpoint) : Counters :=
  DiffEndpoints curr next
    (fun _ _ c => { c with eq := c.eq + 1 })
    (fun _ _ c => { c with add := c.add + 1 })
    (fun _ _ c => { c with del := c.del + 1 })
    ⟨0, 0, 0⟩

/-- Sorted by `(host, port)`: no later element compares below an earlier one. -/
def SortedEndpoints (l : List Endpoint) : Prop :=
  l.Pairwise (fun a b => compareEndpoints a b ≠ .gt)

/-- Strictly sorted by `(host, port)`: sorted, and no identity occurs twice. -/
def StrictSortedEndpoints (l : List Endpoint) : Prop :=
  l.Pairwise (fun a b => compareEndpoints a b = .lt)

instance (l : List Endpoint) : Decidable (SortedEndpoints l) := by
  unfold SortedEndpoints; infer_instance

instance (l : List Endpoint) : Decidable (StrictSortedEndpoints l) := by
  unfold StrictSortedEndpoints; infer_instance

/-- The endpoint a callback invocation reports: `curr[i]` for `del` and `eq`, `next[j]` for
`add`. -/
def DiffCall.reported (curr next : List Endpoint) : DiffCall → Option Endpoint
  | .eq i _ => curr[i]?
  | .del i _ => curr[i]?
  | .add _ j => next[j]?

/-- The index into `curr` a callback invocation reports (`del` and `eq` only). -/
def DiffCall.currIdx : DiffCall → Option Nat
  | .eq i _ => some i
  | .del i _ => some i
  | .add _ _ => none

/-- The index into `next` a callback invocation reports (`add` and `eq` only). -/
def DiffCall.nextIdx : DiffCall → Option Nat
  | .eq _ j => some j
  | .add _ j => some j
  | .del _ _ => none

/-- Modelled from the spec: `SortEndpoints`, called by `mergeEndpointIntoCluster` but not among
the source files; it sorts by `(host, port)`. -/
def SortEndpoints (es : List Endpoint) : List Endpoint :=
  es.insertionSort (fun a b => compareEndpoints a b ≠ .gt)

/-! ## Panics -/

/-- The run-time panics the modelled code can raise. -/
inductive Panic where
  | indexOutOfRange
  | nilDereference
deriving DecidableEq, Repr

/-! ## Cluster (section 4.D of the spec) -/

/-- Connection lifecycle state. -/
inductive State where
  | Offline
  | Online
  | Banned
deriving DecidableEq, Repr

/-- Advisory endpoint metadata `info.Info{LoadFactor, Local}`. -/
structure Info where
  LoadFactor : Nat
  Local : Bool
deriving DecidableEq, Repr

/-- Metadata carried by an endpoint. -/
def Endpoint.Info (e : Endpoint) : Info := ⟨e.LoadFactor, e.Local⟩

/-- The record the cluster index keeps per identity: the connection's metadata and state. -/
structure Entry where
  info : Info
  state : State
deriving DecidableEq, Repr

/-- An element of the balancer: the connection (named by its identity) and its metadata. -/
structure BalancerElement where
  conn : Addr
  info : Info
deriving DecidableEq, Repr

/-- Modelled from the spec: the cluster state of section 3 (`index`, `balancer`,
`tracker_queue`); the cluster type is not among the source files. Transports, statistics and
the `closed` flag are not part of the model: the state is that of a cluster that has not been
closed. -/
structure Cluster where
  index : AList (fun _ : Addr => Entry)
  balancer : List BalancerElement
  trackerQueue : List Addr

/-- A cluster with no endpoint, as built by the tests (`&cluster{...}`). -/
def Cluster.empty : Cluster := ⟨∅, [], []⟩

/-- Modelled from the spec: `Update` (section 4.D): "Replaces stored metadata (load_factor,
local). If Connection is Online, calls `balancer.update`." An identity that is not in the
index has no stored metadata: nothing changes. -/
def Cluster.Update (c : Cluster) (e : Endpoint) : Cluster :=
  match c.index.lookup e.Addr with
  | none => c
  | some entry =>
    { c with
      index := c.index.replace e.Addr { entry with info := e.Info }
      balancer :=
        if entry.state = .Online then
          c.balancer.map (fun el => if el.conn = e.Addr then { el with info := e.Info } else el)
        else c.balancer }

/-- Modelled from the spec: `Insert` (section 4.D): "If identity already present: treats as
`Update`. Otherwise creates Connection (state=Offline), inserts in `index`, enqueues in
tracker, wakes tracker." -/
def Cluster.Insert (c : Cluster) (e : Endpoint) : Cluster :=
  match c.index.lookup e.Addr with
  | some _ => c.Update e
  | none =>
    { c with
      index := c.index.insert e.Addr ⟨e.Info, .Offline⟩
      trackerQueue := c.trackerQueue ++ [e.Addr] }

/-- Modelled from the spec: `Remove` (section 4.D): "Looks up identity; if absent, no-op. If
Online, `balancer.remove`; otherwise unqueue from tracker. Closes transport. Deletes from
`index`." -/
def Cluster.Remove (c : Cluster) (e : Endpoint) : Cluster :=
  match c.index.lookup e.Addr with
  | none => c
  | some entry =>
    { index := c.index.erase e.Addr
      balancer :=
        if entry.state = .Online then c.balancer.filter (fun el => el.conn ≠ e.Addr)
        else c.balancer
      trackerQueue :=
        if entry.state = .Online then c.trackerQueue
        else c.trackerQueue.filter (fun a => a ≠ e.Addr) }

/-- Modelled from the spec: `Stats(visit)` (section 4.D): "iterates `index` under lock, invoking
`visit(endpoint, stats_snapshot)` for each"; the visited identities with their records. -/
def Cluster.Stats {σ : Type} (c : Cluster) (visit : Addr → Entry → σ → σ) (s : σ) : σ :=
  c.index.entries.foldl (fun s kv => visit kv.1 kv.2 s) s

/-- Modelled from the spec: what one tracker iteration does with one queued identity, given the
dial outcome (section 4.C, step 4): success for an entry still in the index and not Online
promotes it into the balancer and unqueues it; failure leaves it queued; an identity no
longer in the index is dropped. -/
def Cluster.trackerVisit (dial : Addr → Bool) (c : Cluster) (a : Addr) : Cluster :=
  match c.index.lookup a with
  | none => { c with trackerQueue := c.trackerQueue.filter (fun x => x ≠ a) }
  | some entry =>
    if dial a = true ∧ entry.state ≠ .Online then
      { index := c.index.replace a { entry with state := .Online }
        balancer := c.balancer ++ [⟨a, entry.info⟩]
        trackerQueue := c.trackerQueue.filter (fun x => x ≠ a) }
    else c

/-- Modelled from the spec: one tracker iteration (section 4.C): snapshot the queue, then
handle every snapshot entry with its dial outcome. -/
def Cluster.trackerIteration (dial : Addr → Bool) (c : Cluster) : Cluster :=
  c.trackerQueue.foldl (Cluster.trackerVisit dial) c

/-- The number of connections a tracker iteration collects to track: the length of the queue
snapshot handed to `testHookTrackerQueue`. -/
def Cluster.tracking (c : Cluster) : Nat := c.trackerQueue.length

/-- Go slice indexing `s[j]`: out of range panics. -/
def index? {α : Type} (s : List α) (j : Nat) : Except Panic α :=
  match s[j]? with
  | some x => .ok x
  | none => .error .indexOutOfRange

/-- Function `mergeEndpointIntoCluster(ctx, c, curr, next)` of `cluster_test.go`: sort both lists, then
drive `Update` on equal, `Insert` on added and `Remove` on removed. -/
def mergeEndpointIntoCluster (c : Cluster) (curr next : List Endpoint) : Except Panic Cluster :=
  let curr := SortEndpoints curr
  let next := SortEndpoints next
  DiffEndpoints curr next
    (fun _ j r => do let c ← r; let e ← index? next j; pure (c.Update e))
    (fun _ j r => do let c ← r; let e ← index? next j; pure (c.Insert e))
    (fun i _ r => do let c ← r; let e ← index? curr i; pure (c.Remove e))
    (.ok c)

/-- List `endpoints` of `TestClusterMergeEndpoints` (scenario C of the spec): `foo/0`, `foo/123`. -/
def scenarioEndpoints : List Endpoint := [⟨"foo", 0, 0, false⟩, ⟨"foo", 123, 0, false⟩]

/-- List `nextEndpoints` of `TestClusterMergeEndpoints`: `foo/0`, `bar/0`, `bar/123`. -/
def scenarioNextEndpoints : List Endpoint :=
  [⟨"foo", 0, 0, false⟩, ⟨"bar", 0, 0, false⟩, ⟨"bar", 123, 0, false⟩]

/-- A cluster whose index holds the identities of `scenarioEndpoints`, both still offline and
queued for dialling. -/
def scenarioCluster : Cluster :=
  { index := ((∅ : AList (fun _ : Addr => Entry)).insert ⟨"foo", 0⟩ ⟨⟨0, false⟩, .Offline⟩).insert
      ⟨"foo", 123⟩ ⟨⟨0, false⟩, .Offline⟩
    balancer := []
    trackerQueue := [⟨"foo", 0⟩, ⟨"foo", 123⟩] }

/-! ## The round-robin balancer of the tests (`simpleBalancer`) -/

/-- A connection object, named by the address it was dialled for. -/
structure Conn where
  addr : Addr
deriving DecidableEq, Repr

/-- Element of `list2.List`: the connection (an interface value, `none` is `nil`) and its
metadata. -/
structure Element where
  conn : Option Conn
  info : Info
deriving DecidableEq, Repr

/-- Width of the Go `int` type (64-bit platforms). -/
def intBits : Nat := 64

/-- Two's-complement wrap-around of a Go `int`. -/
def wrapInt (x : Int) : Int := (x + 2 ^ (intBits - 1)) % 2 ^ intBits - 2 ^ (intBits - 1)

/-- The variables captured by the closures of `simpleBalancer()`: the list `cs` and the
cursor `i`. -/
structure simpleBalancer where
  cs : List Element
  i : Int
deriving DecidableEq, Repr

/-- State right after `simpleBalancer()` returned and the connections `cs` were inserted:
`var i int` is still zero. -/
def simpleBalancer.init (cs : List Element) : simpleBalancer := ⟨cs, 0⟩

/-- Closure `OnNext` of `simpleBalancer`:
`n := len(*cs); if n == 0 { return nil }; e := (*cs)[i%n]; i++; return e.conn`.
Go's `%` truncates towards zero (`Int.tmod`); indexing out of range panics. -/
def simpleBalancer.OnNext (b : simpleBalancer) : Except Panic (Option Conn × simpleBalancer) :=
  let n := b.cs.length
  if n = 0 then .ok (none, b)
  else
    let k := Int.tmod b.i n
    if k < 0 then .error .indexOutOfRange
    else
      match b.cs[k.toNat]? with
      | none => .error .indexOutOfRange
      | some e => .ok (e.conn, { b with i := wrapInt (b.i + 1) })

/-- Method `stubBalancer.Next`: `if f := s.OnNext; f != nil { return f() }; return nil`, with the
state captured by the closure passed explicitly. -/
def stubBalancer.Next {β : Type} (OnNext : Option (β → Except Panic (Option Conn × β)))
    (st : β) : Except Panic (Option Conn × β) :=
  match OnNext with
  | some f => f st
  | none => .ok (none, st)

/-- Method `Next` of the balancer returned by `simpleBalancer()`. -/
def simpleBalancer.Next (b : simpleBalancer) : Except Panic (Option Conn × simpleBalancer) :=
  stubBalancer.Next (some simpleBalancer.OnNext) b

/-- The balancer state after `k` calls of `Next`. -/
def simpleBalancer.after : Nat → simpleBalancer → Except Panic simpleBalancer
  | 0, b => .ok b
  | k + 1, b =>
    match b.Next with
    | .ok (_, b') => simpleBalancer.after k b'
    | .error p => .error p

/-- What the `k`-th call of `Next` (`k = 0, 1, 2, ...`) returns. -/
def simpleBalancer.nthNext (k : Nat) (b : simpleBalancer) : Except Panic (Option Conn) :=
  match simpleBalancer.after k b with
  | .ok b' => (b'.Next).map Prod.fst
  | .error p => .error p

/-- Three connections held by a `simpleBalancer`. -/
def roundRobinConns : List Element :=
  [⟨some ⟨"foo", 0⟩, ⟨0, false⟩⟩, ⟨some ⟨"bar", 0⟩, ⟨0, false⟩⟩, ⟨some ⟨"bar", 123⟩, ⟨0, false⟩⟩]

/-! ## Incoming metadata callbacks (`internal/meta/incoming.go`) -/

/-- Metadata `metadata.MD`: the entries of the map; `len(md)` is the number of entries. -/
abbrev MD := List (String × List String)

/-- Callback `MetadataCallback func(md metadata.MD)`: its effect on the state `σ` it
captures. -/
abbrev MetadataCallback (σ : Type) := MD → σ → σ

/-- Context keys: the private `metadataCallbackKey{}` and every other key. -/
inductive CtxKey where
  | metadataCallbackKey
  | other (name : String)
deriving DecidableEq, Repr

/-- Values stored in a context: a `MetadataCallback`, or a value of another type. -/
inductive CtxVal (σ : Type) where
  | callback (cb : MetadataCallback σ)
  | other (v : String)

/-- Context `context.Context` as a chain of `context.WithValue` over a root. -/
inductive Context (σ : Type) where
  | background
  | withValue (parent : Context σ) (key : CtxKey) (val : CtxVal σ)

/-- Lookup `ctx.Value(key)`: the innermost value stored under `key`. -/
def Context.Value {σ : Type} : Context σ → CtxKey → Option (CtxVal σ)
  | .background, _ => none
  | .withValue parent key val, k => if key = k then some val else parent.Value k

/-- The type assertion `.(MetadataCallback)` with its `has` result. -/
def asMetadataCallback {σ : Type} : Option (CtxVal σ) → Option (MetadataCallback σ)
  | some (.callback cb) => some cb
  | _ => none

/-- Function `WithIncomingCallback(ctx, callback)`: compose with the callback already attached, if any. -/
def WithIncomingCallback {σ : Type} (ctx : Context σ) (callback : MetadataCallback σ) :
    Context σ :=
  match asMetadataCallback (ctx.Value .metadataCallbackKey) with
  | some existingCallback =>
    .withValue ctx .metadataCallbackKey
      (.callback (fun md s => callback md (existingCallback md s)))
  | none => .withValue ctx .metadataCallbackKey (.callback callback)

/-- Function `CallIncomingCallback(ctx, md)`: nothing for empty metadata or without a callback. -/
def CallIncomingCallback {σ : Type} (ctx : Context σ) (md : MD) (s : σ) : σ :=
  if md.length = 0 then s
  else
    match asMetadataCallback (ctx.Value .metadataCallbackKey) with
    | none => s
    | some callback => callback md s

/-- The sequence of callback invocations of `DiffEndpoints(curr, next, eq, add, del)`, as
recorded by callbacks that append their name and arguments to a log. -/
def diffCalls (curr next : List Endpoint) : List DiffCall :=
  DiffEndpoints curr next
    (fun i j log => log ++ [.eq i j])
    (fun i j log => log ++ [.add i j])
    (fun i j log => log ++ [.del i j])
    []

/-! ## Test data of `TestDiffEndpoint` -/

/-- List `someEndpoints` of `TestDiffEndpoint`. -/
def someEndpoints : List Endpoint := [⟨"0", 0, 0, false⟩, ⟨"1", 1, 0, false⟩]

/-- List `sameSomeEndpoints` of `TestDiffEndpoint`. -/
def sameSomeEndpoints : List Endpoint := [⟨"0", 0, 1, true⟩, ⟨"1", 1, 2, true⟩]

/-- List `anotherEndpoints` of `TestDiffEndpoint`. -/
def anotherEndpoints : List Endpoint := [⟨"2", 0, 0, false⟩, ⟨"3", 1, 0, false⟩]

/-- List `moreEndpointsOverlap` of `TestDiffEndpoint`. -/
def moreEndpointsOverlap : List Endpoint :=
  [⟨"0", 0, 1, true⟩, ⟨"1", 1, 0, false⟩, ⟨"1", 2, 0, false⟩]

/-! ## Connect options (`connect_options.go`) -/

/-- Go `error` values. -/
structure GoError where
  msg : String
deriving DecidableEq, Repr

/-- Credentials values (`credentials.Credentials`). The constructors of the internal
credentials package are not among the source files; a credentials object records what it was
built from. -/
inductive Credentials where
  | authToken (accessToken sourceInfo : String)
  | anonymous (sourceInfo : String)
  | custom (id : Nat)
deriving DecidableEq, Repr

/-- The source description a credentials object was built with, if any. -/
def Credentials.sourceInfo : Credentials → Option String
  | .authToken _ sourceInfo => some sourceInfo
  | .anonymous sourceInfo => some sourceInfo
  | .custom _ => none

/-- Driver configuration `config.Config`: the fields written by the options, the remaining
fields taken together as `others`. `Credentials` is an interface value (`none` is `nil`);
the balancer configuration and the trace are carried as uninterpreted values. -/
structure Config where
  Credentials : Option Credentials
  BalancingConfig : Nat
  GrpcConnectionPolicyTTL : Int
  Trace : Nat
  others : Nat
deriving DecidableEq, Repr

/-- TLS configuration `tls.Config`: `RootCAs` (a `*x509.CertPool`, `none` is `nil`) and some
of the other fields, the remaining ones taken together as `others`. -/
structure TLSConfig where
  RootCAs : Option Nat
  ServerName : String
  InsecureSkipVerify : Bool
  MinVersion : Nat
  others : Nat
deriving DecidableEq, Repr

/-- The zero value `tls.Config{}`. -/
def TLSConfig.zero : TLSConfig := ⟨none, "", false, 0, 0⟩

/-- The struct `options` of `connect_options.go`. `time.Duration` and `int` values are
integers. `tlsConfig` and `driverConfig` are pointers the options write through: they are
addresses into the heap (`none` is `nil`). The other pointer fields point to values that
are never written through them: they are the value pointed to (`none` is `nil`). -/
structure options where
  dialTimeout : Int
  tlsConfig : Option Nat
  traceTable : Option Nat
  driverConfig : Option Nat
  discoveryInterval : Option Int
  tableSessionPoolSizeLimit : Option Int
  tableSessionPoolKeepAliveMinSize : Option Int
  tableSessionPoolIdleThreshold : Option Int
  tableSessionPoolKeepAliveTimeout : Option Int
  tableSessionPoolCreateSessionTimeout : Option Int
  tableSessionPoolDeleteTimeout : Option Int
deriving DecidableEq, Repr

/-- The client `db`, of which the options touch the field `options` only. -/
structure db where
  options : options
deriving DecidableEq, Repr

/-- The objects the pointers of `options` lead to: the `config.Config` and `tls.Config`
object at every address, and the next unused address for a `tls.Config`. -/
structure Heap where
  config : Nat → Config
  tlsConfig : Nat → TLSConfig
  tlsNext : Nat

/-- What applying an option can read and write: the client and the heap. -/
structure ClientState where
  client : db
  heap : Heap

/-- The type `Option func(ctx context.Context, client *db) error`: from the context (of type
`κ`) and the state before to a panic, or the returned error (`none` is `nil`) and the state
after. -/
abbrev DbOption (κ : Type) := κ → ClientState → Except Panic (Option GoError × ClientState)

/-- Apply `first` and then, unless it returned an error, `second` to the same client. -/
def DbOption.andThen {κ : Type} (first second : DbOption κ) : DbOption κ := fun ctx st =>
  match first ctx st with
  | .error p => .error p
  | .ok (some err, st') => .ok (some err, st')
  | .ok (none, st') => second ctx st'

/-- The credentials the client would use: `c.options.driverConfig.Credentials`. -/
def ClientState.credentials (st : ClientState) : Except Panic (Option Credentials) :=
  match st.client.options.driverConfig with
  | none => .error .nilDereference
  | some p => .ok (st.heap.config p).Credentials

/-- Function `WithCreateCredentialsFunc(createCredentials)`: the returned option calls the
factory, returns its error if any, and else stores the credentials in
`c.options.driverConfig.Credentials`. The factory is a function of the context; it does not
write to the client. -/
def WithCreateCredentialsFunc {κ : Type}
    (createCredentials : κ → Option Credentials × Option GoError) : DbOption κ := fun ctx st =>
  match createCredentials ctx with
  | (_, some err) => .ok (some err, st)
  | (credentials, none) =>
    match st.client.options.driverConfig with
    | none => .error .nilDereference
    | some p =>
      .ok (none, { st with heap := { st.heap with
        config := Function.update st.heap.config p
          { st.heap.config p with Credentials := credentials } } })

/-- Function `WithCredentials(c)`: the option of the factory that returns `c, nil`. -/
def WithCredentials {κ : Type} (c : Option Credentials) : DbOption κ :=
  WithCreateCredentialsFunc (fun _ => (c, none))

/-- Function `WithAccessTokenCredentials(accessToken)`; `internalNew` stands for
`internal.NewAuthTokenCredentials`, which is not among the source files. -/
def WithAccessTokenCredentials {κ : Type} (internalNew : String → String → Credentials)
    (accessToken : String) : DbOption κ :=
  WithCredentials (some (internalNew accessToken
    "connect.WithAccessTokenCredentials(accessToken)"))

/-- Function `NewAuthTokenCredentials(accessToken)`; `internalNew` stands for
`internal.NewAuthTokenCredentials`, which is not among the source files. -/
def NewAuthTokenCredentials (internalNew : String → String → Credentials)
    (accessToken : String) : Credentials :=
  internalNew accessToken "connect.NewAuthTokenCredentials(accessToken)"

/-- Function `WithDriverConfig(config)`: `c.options.driverConfig = config`. -/
def WithDriverConfig {κ : Type} (config : Option Nat) : DbOption κ := fun _ st =>
  .ok (none, { st with client := { options := { st.client.options with driverConfig := config } } })

/-- Function `WithBalancingConfig(config)`:
`client.options.driverConfig.BalancingConfig = config`. -/
def WithBalancingConfig {κ : Type} (config : Nat) : DbOption κ := fun _ st =>
  match st.client.options.driverConfig with
  | none => .error .nilDereference
  | some p =>
    .ok (none, { st with heap := { st.heap with
      config := Function.update st.heap.config p
        { st.heap.config p with BalancingConfig := config } } })

/-- Function `WithGrpcConnectionTTL(ttl)`:
`client.options.driverConfig.GrpcConnectionPolicy.TTL = ttl`. -/
def WithGrpcConnectionTTL {κ : Type} (ttl : Int) : DbOption κ := fun _ st =>
  match st.client.options.driverConfig with
  | none => .error .nilDereference
  | some p =>
    .ok (none, { st with heap := { st.heap with
      config := Function.update st.heap.config p
        { st.heap.config p with GrpcConnectionPolicyTTL := ttl } } })

/-- Function `WithDialTimeout(timeout)`. -/
def WithDialTimeout {κ : Type} (timeout : Int) : DbOption κ := fun _ st =>
  .ok (none, { st with client := { options := { st.client.options with dialTimeout := timeout } } })

/-- Function `WithDiscoveryInterval(discoveryInterval)`. -/
def WithDiscoveryInterval {κ : Type} (discoveryInterval : Int) : DbOption κ := fun _ st =>
  .ok (none, { st with client := { options :=
    { st.client.options with discoveryInterval := some discoveryInterval } } })

/-- Function `WithSessionPoolSizeLimit(sizeLimit)`. -/
def WithSessionPoolSizeLimit {κ : Type} (sizeLimit : Int) : DbOption κ := fun _ st =>
  .ok (none, { st with client := { options :=
    { st.client.options with tableSessionPoolSizeLimit := some sizeLimit } } })

/-- Function `WithSessionPoolKeepAliveMinSize(keepAliveMinSize)`. -/
def WithSessionPoolKeepAliveMinSize {κ : Type} (keepAliveMinSize : Int) : DbOption κ :=
  fun _ st =>
  .ok (none, { st with client := { options :=
    { st.client.options with tableSessionPoolKeepAliveMinSize := some keepAliveMinSize } } })

/-- Function `WithSessionPoolIdleThreshold(idleThreshold)`. -/
def WithSessionPoolIdleThreshold {κ : Type} (idleThreshold : Int) : DbOption κ := fun _ st =>
  .ok (none, { st with client := { options :=
    { st.client.options with tableSessionPoolIdleThreshold := some idleThreshold } } })

/-- Function `WithSessionPoolKeepAliveTimeout(keepAliveTimeout)`. -/
def WithSessionPoolKeepAliveTimeout {κ : Type} (keepAliveTimeout : Int) : DbOption κ :=
  fun _ st =>
  .ok (none, { st with client := { options :=
    { st.client.options with tableSessionPoolKeepAliveTimeout := some keepAliveTimeout } } })

/-- Function `WithSessionPoolCreateSessionTimeout(createSessionTimeout)`. -/
def WithSessionPoolCreateSessionTimeout {κ : Type} (createSessionTimeout : Int) : DbOption κ :=
  fun _ st =>
  .ok (none, { st with client := { options :=
    { st.client.options with
      tableSessionPoolCreateSessionTimeout := some createSessionTimeout } } })

/-- Function `WithSessionPoolDeleteTimeout(deleteTimeout)`. -/
def WithSessionPoolDeleteTimeout {κ : Type} (deleteTimeout : Int) : DbOption κ := fun _ st =>
  .ok (none, { st with client := { options :=
    { st.client.options with tableSessionPoolDeleteTimeout := some deleteTimeout } } })

/-- Function `WithTLSConfig(tlsConfig)`: `c.options.tlsConfig = tlsConfig`. -/
def WithTLSConfig {κ : Type} (tlsConfig : Option Nat) : DbOption κ := fun _ st =>
  .ok (none, { st with client := { options := { st.client.options with tlsConfig := tlsConfig } } })

/-- Function `WithCertificates(certPool)`: allocate `&tls.Config{}` when `c.options.tlsConfig`
is `nil`, then `c.options.tlsConfig.RootCAs = certPool`. -/
def WithCertificates {κ : Type} (certPool : Option Nat) : DbOption κ := fun _ st =>
  match st.client.options.tlsConfig with
  | none =>
    let p := st.heap.tlsNext
    .ok (none,
      { client := { options := { st.client.options with tlsConfig := some p } }
        heap := { st.heap with
          tlsConfig := Function.update st.heap.tlsConfig p
            { TLSConfig.zero with RootCAs := certPool }
          tlsNext := p + 1 } })
  | some p =>
    .ok (none, { st with heap := { st.heap with
      tlsConfig := Function.update st.heap.tlsConfig p
        { st.heap.tlsConfig p with RootCAs := certPool } } })

/-- The eight scalar option setters `WithDialTimeout` .. `WithSessionPoolDeleteTimeout`, each
with the value it is given. -/
inductive ScalarSetter where
  | dialTimeout (v : Int)
  | discoveryInterval (v : Int)
  | sessionPoolSizeLimit (v : Int)
  | sessionPoolKeepAliveMinSize (v : Int)
  | sessionPoolIdleThreshold (v : Int)
  | sessionPoolKeepAliveTimeout (v : Int)
  | sessionPoolCreateSessionTimeout (v : Int)
  | sessionPoolDeleteTimeout (v : Int)
deriving DecidableEq, Repr

/-- The option a scalar setter returns. -/
def ScalarSetter.option {κ : Type} : ScalarSetter → DbOption κ
  | .dialTimeout v => WithDialTimeout v
  | .discoveryInterval v => WithDiscoveryInterval v
  | .sessionPoolSizeLimit v => WithSessionPoolSizeLimit v
  | .sessionPoolKeepAliveMinSize v => WithSessionPoolKeepAliveMinSize v
  | .sessionPoolIdleThreshold v => WithSessionPoolIdleThreshold v
  | .sessionPoolKeepAliveTimeout v => WithSessionPoolKeepAliveTimeout v
  | .sessionPoolCreateSessionTimeout v => WithSessionPoolCreateSessionTimeout v
  | .sessionPoolDeleteTimeout v => WithSessionPoolDeleteTimeout v

/-- The position, in the struct `options`, of the field a scalar setter assigns. -/
def ScalarSetter.field : ScalarSetter → Nat
  | .dialTimeout _ => 0
  | .discoveryInterval _ => 4
  | .sessionPoolSizeLimit _ => 5
  | .sessionPoolKeepAliveMinSize _ => 6
  | .sessionPoolIdleThreshold _ => 7
  | .sessionPoolKeepAliveTimeout _ => 8
  | .sessionPoolCreateSessionTimeout _ => 9
  | .sessionPoolDeleteTimeout _ => 10

/-- A client whose driver configuration is the object at address 0, with nothing else set,
on a heap of zero-valued objects. -/
def exampleClient : ClientState :=
  { client := { options := ⟨0, none, none, some 0, none, none, none, none, none, none, none⟩ }
    heap := { config := fun _ => ⟨none, 0, 0, 0, 0⟩, tlsConfig := fun _ => TLSConfig.zero,
              tlsNext := 0 } }

/-! # Theorems -/

/-! ## Endpoint diff -/

theorem countCalls_walk (as bs : List Endpoint) (i j : Nat) (c : Counters) :
    let r := (diffWalk as bs i j).foldl (DiffCall.fire
      (fun _ _ c => { c with eq := c.eq + 1 })
      (fun _ _ c => { c with add := c.add + 1 })
      (fun _ _ c => { c with del := c.del + 1 })) c
    r.eq + r.add = c.eq + c.add + bs.length ∧ r.eq + r.del = c.eq + c.del + as.length := by
  induction as, bs, i, j using diffWalk.induct generalizing c with
  | case1 => simp [diffWalk]
  | case2 a as i j ih =>
    have := ih { c with del := c.del + 1 }
    simp only [diffWalk, List.foldl_cons, DiffCall.fire, List.length_cons, List.length_nil] at this ⊢
    omega
  | case3 b bs i j ih =>
    have := ih { c with add := c.add + 1 }
    simp only [diffWalk, List.foldl_cons, DiffCall.fire, List.length_cons, List.length_nil] at this ⊢
    omega
  | case4 a as b bs i j h ih =>
    have := ih { c with del := c.del + 1 }
    simp only [diffWalk, h, List.foldl_cons, DiffCall.fire, List.length_cons, List.length_nil] at this ⊢
    omega
  | case5 a as b bs i j h ih =>
    have := ih { c with add := c.add + 1 }
    simp only [diffWalk, h, List.foldl_cons, DiffCall.fire, List.length_cons, List.length_nil] at this ⊢
    omega
  | case6 a as b bs i j h ih =>
    have := ih { c with eq := c.eq + 1 }
    simp only [diffWalk, h, List.foldl_cons, DiffCall.fire, List.length_cons, List.length_nil] at this ⊢
    omega

theorem compareEndpoints_lt_iff (a b : Endpoint) :
    compareEndpoints a b = .lt ↔ a.Host < b.Host ∨ (a.Host = b.Host ∧ a.Port < b.Port) := by
  unfold compareEndpoints
  constructor
  · intro h
    split_ifs at h with h1 h2 h3
    · exact Or.inl h1
    · exact Or.inr ⟨le_antisymm (not_lt.1 h2) (not_lt.1 h1), h3⟩
  · rintro (h | ⟨h, h'⟩)
    · simp [h]
    · simp [h, h']

theorem compareEndpoints_gt_iff (a b : Endpoint) :
    compareEndpoints a b = .gt ↔ compareEndpoints b a = .lt := by
  rw [compareEndpoints_lt_iff]
  unfold compareEndpoints
  constructor
  · intro h
    split_ifs at h with h1 h2 h3 h4
    · exact Or.inl h2
    · exact Or.inr ⟨le_antisymm (not_lt.1 h1) (not_lt.1 h2), h4⟩
  · rintro (h | ⟨h, h'⟩)
    · simp [h, lt_asymm h]
    · simp [h, h', Nat.lt_asymm h']

theorem compareEndpoints_eq_iff (a b : Endpoint) :
    compareEndpoints a b = .eq ↔ a.Addr = b.Addr := by
  unfold compareEndpoints Endpoint.Addr
  constructor
  · intro h
    split_ifs at h with h1 h2 h3 h4
    rw [Addr.mk.injEq]
    exact ⟨le_antisymm (not_lt.1 h2) (not_lt.1 h1), le_antisymm (not_lt.1 h4) (not_lt.1 h3)⟩
  · intro h
    rw [Addr.mk.injEq] at h
    simp [h.1, h.2]

theorem compareEndpoints_congr {a a' b b' : Endpoint} (ha : a.Addr = a'.Addr)
    (hb : b.Addr = b'.Addr) : compareEndpoints a b = compareEndpoints a' b' := by
  unfold Endpoint.Addr at ha hb
  rw [Addr.mk.injEq] at ha hb
  unfold compareEndpoints
  rw [ha.1, ha.2, hb.1, hb.2]

theorem compareEndpoints_lt_trans {a b c : Endpoint} (h1 : compareEndpoints a b = .lt)
    (h2 : compareEndpoints b c = .lt) : compareEndpoints a c = .lt := by
  rw [compareEndpoints_lt_iff] at *
  rcases h1 with h1 | ⟨h1, h1'⟩ <;> rcases h2 with h2 | ⟨h2, h2'⟩
  · exact Or.inl (lt_trans h1 h2)
  · exact Or.inl (h2 ▸ h1)
  · exact Or.inl (h1 ▸ h2)
  · exact Or.inr ⟨h1.trans h2, Nat.lt_trans h1' h2'⟩

theorem compareEndpoints_lt_ne {a b : Endpoint} (h : compareEndpoints a b = .lt) :
    a.Addr ≠ b.Addr := by
  intro he
  rw [(compareEndpoints_eq_iff a b).2 he] at h
  cases h


theorem StrictSortedEndpoints.strict_tail {a : Endpoint} {as : List Endpoint}
    (h : StrictSortedEndpoints (a :: as)) : StrictSortedEndpoints as :=
  (List.pairwise_cons.1 h).2

theorem StrictSortedEndpoints.head_lt {a : Endpoint} {as : List Endpoint}
    (h : StrictSortedEndpoints (a :: as)) : ∀ x ∈ as, compareEndpoints a x = .lt :=
  (List.pairwise_cons.1 h).1

theorem StrictSortedEndpoints.lt_all {a b : Endpoint} {bs : List Endpoint}
    (hab : compareEndpoints a b = .lt) (h : StrictSortedEndpoints (b :: bs)) :
    ∀ x ∈ b :: bs, compareEndpoints a x = .lt := by
  intro x hx
  rcases List.mem_cons.1 hx with rfl | hx
  · exact hab
  · exact compareEndpoints_lt_trans hab (h.head_lt x hx)

theorem diffWalk_eq_mem (as bs : List Endpoint) (i0 j0 : Nat)
    (ha : StrictSortedEndpoints as) (hb : StrictSortedEndpoints bs) (i j : Nat) :
    DiffCall.eq i j ∈ diffWalk as bs i0 j0 ↔
      ∃ a b, (i, a) ∈ as.enumFrom i0 ∧ (j, b) ∈ bs.enumFrom j0 ∧ a.Addr = b.Addr := by
  induction as, bs, i0, j0 using diffWalk.induct with
  | case1 => simp [diffWalk]
  | case2 a as i0 j0 ih => simp [diffWalk, ih ha.strict_tail hb]
  | case3 b bs i0 j0 ih => simp [diffWalk, ih ha hb.strict_tail]
  | case4 a as b bs i0 j0 h ih =>
    simp only [diffWalk, h, List.mem_cons, ih ha.strict_tail hb, List.enumFrom_cons, false_or,
      reduceCtorEq]
    constructor
    · rintro ⟨a', b', h1, h2, h3⟩
      exact ⟨a', b', Or.inr h1, h2, h3⟩
    · rintro ⟨a', b', h1 | h1, h2, h3⟩
      · simp only [Prod.mk.injEq] at h1
        obtain ⟨-, rfl⟩ := h1
        have hm : b' ∈ b :: bs := by
          rcases h2 with h2 | h2
          · simp only [Prod.mk.injEq] at h2; simp [h2.2]
          · exact List.mem_cons_of_mem _ (List.snd_mem_of_mem_enumFrom h2)
        exact absurd h3 (compareEndpoints_lt_ne (StrictSortedEndpoints.lt_all h hb b' hm))
      · exact ⟨a', b', h1, h2, h3⟩
  | case5 a as b bs i0 j0 h ih =>
    rw [compareEndpoints_gt_iff] at h
    simp only [diffWalk, (compareEndpoints_gt_iff a b).2 h, List.mem_cons, ih ha hb.strict_tail,
      List.enumFrom_cons, false_or, reduceCtorEq]
    constructor
    · rintro ⟨a', b', h1, h2, h3⟩
      exact ⟨a', b', h1, Or.inr h2, h3⟩
    · rintro ⟨a', b', h1, h2 | h2, h3⟩
      · simp only [Prod.mk.injEq] at h2
        obtain ⟨-, rfl⟩ := h2
        have hm : a' ∈ a :: as := by
          rcases h1 with h1 | h1
          · simp only [Prod.mk.injEq] at h1; simp [h1.2]
          · exact List.mem_cons_of_mem _ (List.snd_mem_of_mem_enumFrom h1)
        exact absurd h3.symm (compareEndpoints_lt_ne (StrictSortedEndpoints.lt_all h ha a' hm))
      · exact ⟨a', b', h1, h2, h3⟩
  | case6 a as b bs i0 j0 h ih =>
    have hab := (compareEndpoints_eq_iff a b).1 h
    simp only [diffWalk, h, List.mem_cons, ih ha.strict_tail hb.strict_tail, List.enumFrom_cons,
      DiffCall.eq.injEq]
    constructor
    · rintro (⟨rfl, rfl⟩ | ⟨a', b', h1, h2, h3⟩)
      · exact ⟨a, b, Or.inl rfl, Or.inl rfl, hab⟩
      · exact ⟨a', b', Or.inr h1, Or.inr h2, h3⟩
    · rintro ⟨a', b', h1 | h1, h2 | h2, h3⟩
      · simp only [Prod.mk.injEq] at h1 h2
        exact Or.inl ⟨h1.1, h2.1⟩
      · simp only [Prod.mk.injEq] at h1
        obtain ⟨-, rfl⟩ := h1
        have := hb.head_lt b' (List.snd_mem_of_mem_enumFrom h2)
        rw [compareEndpoints_congr hab.symm rfl] at this
        exact absurd h3 (compareEndpoints_lt_ne this)
      · simp only [Prod.mk.injEq] at h2
        obtain ⟨-, rfl⟩ := h2
        have := ha.head_lt a' (List.snd_mem_of_mem_enumFrom h1)
        rw [compareEndpoints_congr hab rfl] at this
        exact absurd h3.symm (compareEndpoints_lt_ne this)
      · exact Or.inr ⟨a', b', h1, h2, h3⟩



theorem diffWalk_add_mem (as bs : List Endpoint) (i0 j0 : Nat)
    (ha : StrictSortedEndpoints as) (hb : StrictSortedEndpoints bs) (j : Nat) :
    (∃ i, DiffCall.add i j ∈ diffWalk as bs i0 j0) ↔
      ∃ b, (j, b) ∈ bs.enumFrom j0 ∧ ∀ a ∈ as, a.Addr ≠ b.Addr := by
  induction as, bs, i0, j0 using diffWalk.induct with
  | case1 => simp [diffWalk]
  | case2 a as i0 j0 ih => simpa [diffWalk] using ih ha.strict_tail hb
  | case3 b bs i0 j0 ih =>
    simp only [diffWalk, List.enumFrom_cons]
    constructor
    · rintro ⟨i, hm⟩
      rcases List.mem_cons.1 hm with hm | hm
      · cases hm
        exact ⟨b, List.mem_cons_self _ _, by simp⟩
      · obtain ⟨b', h1, h2⟩ := (ih ha hb.strict_tail).1 ⟨i, hm⟩
        exact ⟨b', List.mem_cons_of_mem _ h1, h2⟩
    · rintro ⟨b', h1, h2⟩
      rcases List.mem_cons.1 h1 with h1 | h1
      · cases h1
        exact ⟨i0, List.mem_cons_self _ _⟩
      · obtain ⟨i, hi⟩ := (ih ha hb.strict_tail).2 ⟨b', h1, h2⟩
        exact ⟨i, List.mem_cons_of_mem _ hi⟩
  | case4 a as b bs i0 j0 h ih =>
    simp only [diffWalk, h]
    constructor
    · rintro ⟨i, hm⟩
      rcases List.mem_cons.1 hm with hm | hm
      · cases hm
      · obtain ⟨b', h1, h2⟩ := (ih ha.strict_tail hb).1 ⟨i, hm⟩
        refine ⟨b', h1, fun a' ha' => ?_⟩
        rcases List.mem_cons.1 ha' with rfl | ha'
        · exact compareEndpoints_lt_ne
            (StrictSortedEndpoints.lt_all h hb b' (List.snd_mem_of_mem_enumFrom h1))
        · exact h2 a' ha'
    · rintro ⟨b', h1, h2⟩
      obtain ⟨i, hi⟩ := (ih ha.strict_tail hb).2 ⟨b', h1, fun a' ha' => h2 a' (List.mem_cons_of_mem _ ha')⟩
      exact ⟨i, List.mem_cons_of_mem _ hi⟩
  | case5 a as b bs i0 j0 h ih =>
    simp only [diffWalk, h, List.enumFrom_cons]
    rw [compareEndpoints_gt_iff] at h
    constructor
    · rintro ⟨i, hm⟩
      rcases List.mem_cons.1 hm with hm | hm
      · cases hm
        exact ⟨b, List.mem_cons_self _ _, fun a' ha' =>
          (compareEndpoints_lt_ne (StrictSortedEndpoints.lt_all h ha a' ha')).symm⟩
      · obtain ⟨b', h1, h2⟩ := (ih ha hb.strict_tail).1 ⟨i, hm⟩
        exact ⟨b', List.mem_cons_of_mem _ h1, h2⟩
    · rintro ⟨b', h1, h2⟩
      rcases List.mem_cons.1 h1 with h1 | h1
      · cases h1
        exact ⟨i0, List.mem_cons_self _ _⟩
      · obtain ⟨i, hi⟩ := (ih ha hb.strict_tail).2 ⟨b', h1, h2⟩
        exact ⟨i, List.mem_cons_of_mem _ hi⟩
  | case6 a as b bs i0 j0 h ih =>
    have hab := (compareEndpoints_eq_iff a b).1 h
    simp only [diffWalk, h, List.enumFrom_cons]
    constructor
    · rintro ⟨i, hm⟩
      rcases List.mem_cons.1 hm with hm | hm
      · cases hm
      · obtain ⟨b', h1, h2⟩ := (ih ha.strict_tail hb.strict_tail).1 ⟨i, hm⟩
        refine ⟨b', List.mem_cons_of_mem _ h1, fun a' ha' => ?_⟩
        rcases List.mem_cons.1 ha' with rfl | ha'
        · have := hb.head_lt b' (List.snd_mem_of_mem_enumFrom h1)
          rw [compareEndpoints_congr hab.symm rfl] at this
          exact compareEndpoints_lt_ne this
        · exact h2 a' ha'
    · rintro ⟨b', h1, h2⟩
      rcases List.mem_cons.1 h1 with h1 | h1
      · cases h1
        exact absurd hab (h2 a (List.mem_cons_self _ _))
      · obtain ⟨i, hi⟩ := (ih ha.strict_tail hb.strict_tail).2
          ⟨b', h1, fun a' ha' => h2 a' (List.mem_cons_of_mem _ ha')⟩
        exact ⟨i, List.mem_cons_of_mem _ hi⟩

theorem diffWalk_del_mem (as bs : List Endpoint) (i0 j0 : Nat)
    (ha : StrictSortedEndpoints as) (hb : StrictSortedEndpoints bs) (i : Nat) :
    (∃ j, DiffCall.del i j ∈ diffWalk as bs i0 j0) ↔
      ∃ a, (i, a) ∈ as.enumFrom i0 ∧ ∀ b ∈ bs, b.Addr ≠ a.Addr := by
  induction as, bs, i0, j0 using diffWalk.induct with
  | case1 => simp [diffWalk]
  | case2 a as i0 j0 ih =>
    simp only [diffWalk, List.enumFrom_cons]
    constructor
    · rintro ⟨j, hm⟩
      rcases List.mem_cons.1 hm with hm | hm
      · cases hm
        exact ⟨a, List.mem_cons_self _ _, by simp⟩
      · obtain ⟨a', h1, h2⟩ := (ih ha.strict_tail hb).1 ⟨j, hm⟩
        exact ⟨a', List.mem_cons_of_mem _ h1, h2⟩
    · rintro ⟨a', h1, h2⟩
      rcases List.mem_cons.1 h1 with h1 | h1
      · cases h1
        exact ⟨j0, List.mem_cons_self _ _⟩
      · obtain ⟨j, hj⟩ := (ih ha.strict_tail hb).2 ⟨a', h1, h2⟩
        exact ⟨j, List.mem_cons_of_mem _ hj⟩
  | case3 b bs i0 j0 ih => simpa [diffWalk] using ih ha hb.strict_tail
  | case4 a as b bs i0 j0 h ih =>
    simp only [diffWalk, h, List.enumFrom_cons]
    constructor
    · rintro ⟨j, hm⟩
      rcases List.mem_cons.1 hm with hm | hm
      · cases hm
        exact ⟨a, List.mem_cons_self _ _, fun b' hb' =>
          (compareEndpoints_lt_ne (StrictSortedEndpoints.lt_all h hb b' hb')).symm⟩
      · obtain ⟨a', h1, h2⟩ := (ih ha.strict_tail hb).1 ⟨j, hm⟩
        exact ⟨a', List.mem_cons_of_mem _ h1, h2⟩
    · rintro ⟨a', h1, h2⟩
      rcases List.mem_cons.1 h1 with h1 | h1
      · cases h1
        exact ⟨j0, List.mem_cons_self _ _⟩
      · obtain ⟨j, hj⟩ := (ih ha.strict_tail hb).2 ⟨a', h1, h2⟩
        exact ⟨j, List.mem_cons_of_mem _ hj⟩
  | case5 a as b bs i0 j0 h ih =>
    simp only [diffWalk, h]
    rw [compareEndpoints_gt_iff] at h
    constructor
    · rintro ⟨j, hm⟩
      rcases List.mem_cons.1 hm with hm | hm
      · cases hm
      · obtain ⟨a', h1, h2⟩ := (ih ha hb.strict_tail).1 ⟨j, hm⟩
        refine ⟨a', h1, fun b' hb' => ?_⟩
        rcases List.mem_cons.1 hb' with rfl | hb'
        · exact compareEndpoints_lt_ne
            (StrictSortedEndpoints.lt_all h ha a' (List.snd_mem_of_mem_enumFrom h1))
        · exact h2 b' hb'
    · rintro ⟨a', h1, h2⟩
      obtain ⟨j, hj⟩ := (ih ha hb.strict_tail).2 ⟨a', h1, fun b' hb' => h2 b' (List.mem_cons_of_mem _ hb')⟩
      exact ⟨j, List.mem_cons_of_mem _ hj⟩
  | case6 a as b bs i0 j0 h ih =>
    have hab := (compareEndpoints_eq_iff a b).1 h
    simp only [diffWalk, h, List.enumFrom_cons]
    constructor
    · rintro ⟨j, hm⟩
      rcases List.mem_cons.1 hm with hm | hm
      · cases hm
      · obtain ⟨a', h1, h2⟩ := (ih ha.strict_tail hb.strict_tail).1 ⟨j, hm⟩
        refine ⟨a', List.mem_cons_of_mem _ h1, fun b' hb' => ?_⟩
        rcases List.mem_cons.1 hb' with rfl | hb'
        · have := ha.head_lt a' (List.snd_mem_of_mem_enumFrom h1)
          rw [compareEndpoints_congr hab rfl] at this
          exact compareEndpoints_lt_ne this
        · exact h2 b' hb'
    · rintro ⟨a', h1, h2⟩
      rcases List.mem_cons.1 h1 with h1 | h1
      · cases h1
        exact absurd hab.symm (h2 b (List.mem_cons_self _ _))
      · obtain ⟨j, hj⟩ := (ih ha.strict_tail hb.strict_tail).2
          ⟨a', h1, fun b' hb' => h2 b' (List.mem_cons_of_mem _ hb')⟩
        exact ⟨j, List.mem_cons_of_mem _ hj⟩

theorem diffWalk_currIdx (as bs : List Endpoint) (i0 j0 : Nat) :
    (diffWalk as bs i0 j0).filterMap DiffCall.currIdx = List.range' i0 as.length := by
  induction as, bs, i0, j0 using diffWalk.induct with
  | case1 => simp [diffWalk]
  | case2 a as i0 j0 ih => simp [diffWalk, DiffCall.currIdx, ih, List.range'_succ]
  | case3 b bs i0 j0 ih => simpa [diffWalk, DiffCall.currIdx] using ih
  | case4 a as b bs i0 j0 h ih => simp [diffWalk, h, DiffCall.currIdx, ih, List.range'_succ]
  | case5 a as b bs i0 j0 h ih => simpa [diffWalk, h, DiffCall.currIdx] using ih
  | case6 a as b bs i0 j0 h ih => simp [diffWalk, h, DiffCall.currIdx, ih, List.range'_succ]

theorem diffWalk_nextIdx (as bs : List Endpoint) (i0 j0 : Nat) :
    (diffWalk as bs i0 j0).filterMap DiffCall.nextIdx = List.range' j0 bs.length := by
  induction as, bs, i0, j0 using diffWalk.induct with
  | case1 => simp [diffWalk]
  | case2 a as i0 j0 ih => simpa [diffWalk, DiffCall.nextIdx] using ih
  | case3 b bs i0 j0 ih => simp [diffWalk, DiffCall.nextIdx, ih, List.range'_succ]
  | case4 a as b bs i0 j0 h ih => simpa [diffWalk, h, DiffCall.nextIdx] using ih
  | case5 a as b bs i0 j0 h ih => simp [diffWalk, h, DiffCall.nextIdx, ih, List.range'_succ]
  | case6 a as b bs i0 j0 h ih => simp [diffWalk, h, DiffCall.nextIdx, ih, List.range'_succ]


theorem compareEndpoints_lt_iff_lex (a b : Endpoint) :
    compareEndpoints a b = .lt ↔ toLex (a.Host, a.Port) < toLex (b.Host, b.Port) := by
  rw [Prod.Lex.lt_iff, compareEndpoints_lt_iff]

theorem compareEndpoints_ne_gt_iff (a b : Endpoint) :
    compareEndpoints a b ≠ .gt ↔ toLex (a.Host, a.Port) ≤ toLex (b.Host, b.Port) := by
  rw [Ne, compareEndpoints_gt_iff, compareEndpoints_lt_iff_lex, not_lt]

theorem compareEndpoints_ne_gt_trans {a b c : Endpoint} (h1 : compareEndpoints a b ≠ .gt)
    (h2 : compareEndpoints b c ≠ .gt) : compareEndpoints a c ≠ .gt := by
  rw [compareEndpoints_ne_gt_iff] at *
  exact le_trans h1 h2

theorem compareEndpoints_ne_gt_of_lt {a b : Endpoint} (h : compareEndpoints a b = .lt) :
    compareEndpoints a b ≠ .gt := by
  rw [h]; decide

theorem compareEndpoints_ne_gt_of_eq {a b : Endpoint} (h : compareEndpoints a b = .eq) :
    compareEndpoints a b ≠ .gt := by
  rw [h]; decide

theorem compareEndpoints_ne_gt_of_gt {a b : Endpoint} (h : compareEndpoints a b = .gt) :
    compareEndpoints b a ≠ .gt := by
  rw [compareEndpoints_gt_iff] at h
  rw [h]; decide

theorem SortedEndpoints.sorted_tail {a : Endpoint} {as : List Endpoint}
    (h : SortedEndpoints (a :: as)) : SortedEndpoints as :=
  (List.pairwise_cons.1 h).2

theorem SortedEndpoints.le_all {a b : Endpoint} {bs : List Endpoint}
    (hab : compareEndpoints a b ≠ .gt) (h : SortedEndpoints (b :: bs)) :
    ∀ x ∈ b :: bs, compareEndpoints a x ≠ .gt := by
  intro x hx
  rcases List.mem_cons.1 hx with rfl | hx
  · exact hab
  · exact compareEndpoints_ne_gt_trans hab ((List.pairwise_cons.1 h).1 x hx)

theorem compareEndpoints_self (a : Endpoint) : compareEndpoints a a ≠ .gt := by
  rw [(compareEndpoints_eq_iff a a).2 rfl]; decide

theorem drop_cons_getElem? {α : Type} {l : List α} {n : Nat} {a : α} {as : List α}
    (h : l.drop n = a :: as) : l[n]? = some a ∧ l.drop (n + 1) = as := by
  constructor
  · have := List.getElem?_drop l n 0
    rw [h] at this
    simpa using this.symm
  · have : (l.drop n).drop 1 = as := by rw [h]; rfl
    rw [List.drop_drop] at this
    rw [← this, Nat.add_comm]

/-- Reported endpoints of the walk on suffixes: each comes from one of the two suffixes, and
they are in non-decreasing order. -/
theorem diffWalk_reported (curr next as bs : List Endpoint) (i0 j0 : Nat)
    (hc : curr.drop i0 = as) (hn : next.drop j0 = bs)
    (ha : SortedEndpoints as) (hb : SortedEndpoints bs) :
    (∀ c ∈ diffWalk as bs i0 j0, ∃ x, c.reported curr next = some x ∧ (x ∈ as ∨ x ∈ bs)) ∧
    SortedEndpoints ((diffWalk as bs i0 j0).filterMap (DiffCall.reported curr next)) := by
  induction as, bs, i0, j0 using diffWalk.induct with
  | case1 => simp [diffWalk, SortedEndpoints]
  | case2 a as i0 j0 ih =>
    obtain ⟨hget, hdrop⟩ := drop_cons_getElem? hc
    obtain ⟨ih1, ih2⟩ := ih hdrop hn ha.sorted_tail hb
    have hmem : ∀ c ∈ diffWalk as [] (i0 + 1) j0,
        ∃ x, c.reported curr next = some x ∧ (x ∈ a :: as ∨ x ∈ ([] : List Endpoint)) := by
      intro c hcm
      obtain ⟨x, hx, hx'⟩ := ih1 c hcm
      exact ⟨x, hx, hx'.imp (List.mem_cons_of_mem _) id⟩
    refine ⟨?_, ?_⟩
    · intro c hcm
      simp only [diffWalk, List.mem_cons] at hcm
      rcases hcm with rfl | hcm
      · exact ⟨a, hget, Or.inl (List.mem_cons_self _ _)⟩
      · exact hmem c hcm
    · simp only [diffWalk, List.filterMap_cons, DiffCall.reported, hget]
      refine List.pairwise_cons.2 ⟨?_, ih2⟩
      intro x hx
      obtain ⟨c, hcm, hcx⟩ := List.mem_filterMap.1 hx
      obtain ⟨y, hy, hy'⟩ := ih1 c hcm
      rw [hy] at hcx
      cases hcx
      rcases hy' with hy' | hy'
      · exact (List.pairwise_cons.1 ha).1 _ hy'
      · cases hy'
  | case3 b bs i0 j0 ih =>
    obtain ⟨hget, hdrop⟩ := drop_cons_getElem? hn
    obtain ⟨ih1, ih2⟩ := ih hc hdrop ha hb.sorted_tail
    refine ⟨?_, ?_⟩
    · intro c hcm
      simp only [diffWalk, List.mem_cons] at hcm
      rcases hcm with rfl | hcm
      · exact ⟨b, hget, Or.inr (List.mem_cons_self _ _)⟩
      · obtain ⟨x, hx, hx'⟩ := ih1 c hcm
        exact ⟨x, hx, hx'.imp id (List.mem_cons_of_mem _)⟩
    · simp only [diffWalk, List.filterMap_cons, DiffCall.reported, hget]
      refine List.pairwise_cons.2 ⟨?_, ih2⟩
      intro x hx
      obtain ⟨c, hcm, hcx⟩ := List.mem_filterMap.1 hx
      obtain ⟨y, hy, hy'⟩ := ih1 c hcm
      rw [hy] at hcx
      cases hcx
      rcases hy' with hy' | hy'
      · cases hy'
      · exact (List.pairwise_cons.1 hb).1 _ hy'
  | case4 a as b bs i0 j0 h ih =>
    obtain ⟨hget, hdrop⟩ := drop_cons_getElem? hc
    obtain ⟨ih1, ih2⟩ := ih hdrop hn ha.sorted_tail hb
    refine ⟨?_, ?_⟩
    · intro c hcm
      simp only [diffWalk, h, List.mem_cons] at hcm
      rcases hcm with rfl | hcm
      · exact ⟨a, hget, Or.inl (List.mem_cons_self _ _)⟩
      · obtain ⟨x, hx, hx'⟩ := ih1 c hcm
        exact ⟨x, hx, hx'.imp (List.mem_cons_of_mem _) id⟩
    · simp only [diffWalk, h, List.filterMap_cons, DiffCall.reported, hget]
      refine List.pairwise_cons.2 ⟨?_, ih2⟩
      intro x hx
      obtain ⟨c, hcm, hcx⟩ := List.mem_filterMap.1 hx
      obtain ⟨y, hy, hy'⟩ := ih1 c hcm
      rw [hy] at hcx
      cases hcx
      rcases hy' with hy' | hy'
      · exact (List.pairwise_cons.1 ha).1 _ hy'
      · exact SortedEndpoints.le_all (compareEndpoints_ne_gt_of_lt h) hb _ hy'
  | case5 a as b bs i0 j0 h ih =>
    obtain ⟨hget, hdrop⟩ := drop_cons_getElem? hn
    obtain ⟨ih1, ih2⟩ := ih hc hdrop ha hb.sorted_tail
    refine ⟨?_, ?_⟩
    · intro c hcm
      simp only [diffWalk, h, List.mem_cons] at hcm
      rcases hcm with rfl | hcm
      · exact ⟨b, hget, Or.inr (List.mem_cons_self _ _)⟩
      · obtain ⟨x, hx, hx'⟩ := ih1 c hcm
        exact ⟨x, hx, hx'.imp id (List.mem_cons_of_mem _)⟩
    · simp only [diffWalk, h, List.filterMap_cons, DiffCall.reported, hget]
      refine List.pairwise_cons.2 ⟨?_, ih2⟩
      intro x hx
      obtain ⟨c, hcm, hcx⟩ := List.mem_filterMap.1 hx
      obtain ⟨y, hy, hy'⟩ := ih1 c hcm
      rw [hy] at hcx
      cases hcx
      rcases hy' with hy' | hy'
      · exact SortedEndpoints.le_all (compareEndpoints_ne_gt_of_gt h) ha _ hy'
      · exact (List.pairwise_cons.1 hb).1 _ hy'
  | case6 a as b bs i0 j0 h ih =>
    obtain ⟨hget, hdrop⟩ := drop_cons_getElem? hc
    obtain ⟨-, hdrop'⟩ := drop_cons_getElem? hn
    obtain ⟨ih1, ih2⟩ := ih hdrop hdrop' ha.sorted_tail hb.sorted_tail
    refine ⟨?_, ?_⟩
    · intro c hcm
      simp only [diffWalk, h, List.mem_cons] at hcm
      rcases hcm with rfl | hcm
      · exact ⟨a, hget, Or.inl (List.mem_cons_self _ _)⟩
      · obtain ⟨x, hx, hx'⟩ := ih1 c hcm
        exact ⟨x, hx, hx'.imp (List.mem_cons_of_mem _) (List.mem_cons_of_mem _)⟩
    · simp only [diffWalk, h, List.filterMap_cons, DiffCall.reported, hget]
      refine List.pairwise_cons.2 ⟨?_, ih2⟩
      intro x hx
      obtain ⟨c, hcm, hcx⟩ := List.mem_filterMap.1 hx
      obtain ⟨y, hy, hy'⟩ := ih1 c hcm
      rw [hy] at hcx
      cases hcx
      rcases hy' with hy' | hy'
      · exact (List.pairwise_cons.1 ha).1 _ hy'
      · exact compareEndpoints_ne_gt_trans (compareEndpoints_ne_gt_of_eq h)
          ((List.pairwise_cons.1 hb).1 _ hy')


theorem foldl_log (l acc : List DiffCall) :
    l.foldl (DiffCall.fire (fun i j log => log ++ [.eq i j]) (fun i j log => log ++ [.add i j])
      (fun i j log => log ++ [.del i j])) acc = acc ++ l := by
  induction l generalizing acc with
  | nil => simp
  | cons c l ih => cases c <;> simp [DiffCall.fire, ih]

theorem diffCalls_eq_diffWalk (curr next : List Endpoint) :
    diffCalls curr next = diffWalk curr next 0 0 := by
  simp [diffCalls, DiffEndpoints, foldl_log]

theorem diffWalk_nil_left (bs : List Endpoint) (i j : Nat) (c : Counters) :
    (diffWalk [] bs i j).foldl (DiffCall.fire
      (fun _ _ c => { c with eq := c.eq + 1 })
      (fun _ _ c => { c with add := c.add + 1 })
      (fun _ _ c => { c with del := c.del + 1 })) c = ⟨c.eq, c.add + bs.length, c.del⟩ := by
  induction bs generalizing j c with
  | nil => simp [diffWalk]
  | cons b bs ih =>
    simp only [diffWalk, List.foldl_cons, DiffCall.fire, ih, List.length_cons, Counters.mk.injEq]
    refine ⟨trivial, ?_, trivial⟩
    omega

theorem diffWalk_nil_right (as : List Endpoint) (i j : Nat) (c : Counters) :
    (diffWalk as [] i j).foldl (DiffCall.fire
      (fun _ _ c => { c with eq := c.eq + 1 })
      (fun _ _ c => { c with add := c.add + 1 })
      (fun _ _ c => { c with del := c.del + 1 })) c = ⟨c.eq, c.add, c.del + as.length⟩ := by
  induction as generalizing i c with
  | nil => simp [diffWalk]
  | cons a as ih =>
    simp only [diffWalk, List.foldl_cons, DiffCall.fire, ih, List.length_cons, Counters.mk.injEq]
    refine ⟨trivial, trivial, ?_⟩
    omega

/-- Claim C1: `DiffEndpoints` calls `eq`, `add` and `del` so that `#eq + #add = len(next)` and
`#eq + #del = len(curr)`; two empty lists fire no callback, `diff([], next)` fires `add`
exactly `len(next)` times and `diff(curr, [])` fires `del` exactly `len(curr)` times. The
counts are those of the counting callbacks of `TestDiffEndpoint`; they hold for all lists,
sorted or not. -/
theorem DiffEndpoints_call_counts (curr next : List Endpoint) :
    (countCalls curr next).eq + (countCalls curr next).add = next.length ∧
    (countCalls curr next).eq + (countCalls curr next).del = curr.length ∧
    diffCalls [] [] = [] ∧
    countCalls [] [] = ⟨0, 0, 0⟩ ∧
    countCalls [] next = ⟨0, next.length, 0⟩ ∧
    countCalls curr [] = ⟨0, 0, curr.length⟩ := by
  refine ⟨?_, ?_, ?_, ?_, ?_, ?_⟩
  · simpa [countCalls, DiffEndpoints] using (countCalls_walk curr next 0 0 ⟨0, 0, 0⟩).1
  · simpa [countCalls, DiffEndpoints] using (countCalls_walk curr next 0 0 ⟨0, 0, 0⟩).2
  · simp [diffCalls_eq_diffWalk, diffWalk]
  · simp [countCalls, DiffEndpoints, diffWalk]
  · simp [countCalls, DiffEndpoints, diffWalk_nil_left]
  · simp [countCalls, DiffEndpoints, diffWalk_nil_right]

/-- Claim C2: for `curr` and `next` strictly sorted by identity, `eq(i, j)` fires iff `curr[i]`
and `next[j]` have the same `(host, port)`, `add(_, j)` fires iff no element of `curr` has the
identity of `next[j]`, `del(i, _)` fires iff no element of `next` has the identity of
`curr[i]`, and the indices reported through `eq`/`del` (through `eq`/`add`) are exactly
`0, ..., len(curr) - 1` (`0, ..., len(next) - 1`), each once. -/
theorem DiffEndpoints_classifies (curr next : List Endpoint)
    (hc : StrictSortedEndpoints curr) (hn : StrictSortedEndpoints next) :
    (∀ i j, DiffCall.eq i j ∈ diffCalls curr next ↔
      ∃ a b, curr[i]? = some a ∧ next[j]? = some b ∧ a.Addr = b.Addr) ∧
    (∀ j, (∃ i, DiffCall.add i j ∈ diffCalls curr next) ↔
      ∃ b, next[j]? = some b ∧ ∀ a ∈ curr, a.Addr ≠ b.Addr) ∧
    (∀ i, (∃ j, DiffCall.del i j ∈ diffCalls curr next) ↔
      ∃ a, curr[i]? = some a ∧ ∀ b ∈ next, b.Addr ≠ a.Addr) ∧
    (diffCalls curr next).filterMap DiffCall.currIdx = List.range curr.length ∧
    (diffCalls curr next).filterMap DiffCall.nextIdx = List.range next.length := by
  rw [diffCalls_eq_diffWalk]
  refine ⟨?_, ?_, ?_, ?_, ?_⟩
  · intro i j
    rw [diffWalk_eq_mem curr next 0 0 hc hn]
    simp [List.mk_mem_enumFrom_iff_le_and_getElem?_sub]
  · intro j
    rw [diffWalk_add_mem curr next 0 0 hc hn]
    simp [List.mk_mem_enumFrom_iff_le_and_getElem?_sub]
  · intro i
    rw [diffWalk_del_mem curr next 0 0 hc hn]
    simp [List.mk_mem_enumFrom_iff_le_and_getElem?_sub]
  · rw [diffWalk_currIdx, List.range_eq_range']
  · rw [diffWalk_nextIdx, List.range_eq_range']

/-- Witness for C2 on `someEndpoints` and `moreEndpointsOverlap` of `TestDiffEndpoint`. -/
theorem DiffEndpoints_classifies_witness :
    StrictSortedEndpoints someEndpoints ∧ StrictSortedEndpoints moreEndpointsOverlap ∧
    ((∃ i, DiffCall.add i 2 ∈ diffCalls someEndpoints moreEndpointsOverlap) ↔
      ∃ b, moreEndpointsOverlap[2]? = some b ∧ ∀ a ∈ someEndpoints, a.Addr ≠ b.Addr) ∧
    (diffCalls someEndpoints moreEndpointsOverlap).filterMap DiffCall.nextIdx =
      List.range moreEndpointsOverlap.length :=
  have h1 : StrictSortedEndpoints someEndpoints := by
    simp +decide [StrictSortedEndpoints, someEndpoints, compareEndpoints]
  have h2 : StrictSortedEndpoints moreEndpointsOverlap := by
    simp +decide [StrictSortedEndpoints, moreEndpointsOverlap, compareEndpoints]
  ⟨h1, h2, (DiffEndpoints_classifies someEndpoints moreEndpointsOverlap h1 h2).2.1 2,
    (DiffEndpoints_classifies someEndpoints moreEndpointsOverlap h1 h2).2.2.2.2⟩


/-- Claim C9: for `curr` and `next` sorted by `(host, port)` the callbacks fire in sorted order:
every call reports an endpoint (`curr[i]` for `del` and `eq`, `next[j]` for `add`), the
sequence of reported endpoints is non-decreasing in `(host, port)` order, and the indices
`i` reported by `del`/`eq` and the indices `j` reported by `add`/`eq` are strictly
increasing. -/
theorem DiffEndpoints_sorted_order (curr next : List Endpoint)
    (hc : SortedEndpoints curr) (hn : SortedEndpoints next) :
    (∀ c ∈ diffCalls curr next, (c.reported curr next).isSome = true) ∧
    SortedEndpoints ((diffCalls curr next).filterMap (DiffCall.reported curr next)) ∧
    ((diffCalls curr next).filterMap DiffCall.currIdx).Pairwise (fun i i' => i < i') ∧
    ((diffCalls curr next).filterMap DiffCall.nextIdx).Pairwise (fun j j' => j < j') := by
  rw [diffCalls_eq_diffWalk]
  obtain ⟨h1, h2⟩ := diffWalk_reported curr next curr next 0 0 rfl rfl hc hn
  refine ⟨?_, h2, ?_, ?_⟩
  · intro c hcm
    obtain ⟨x, hx, -⟩ := h1 c hcm
    rw [hx]; rfl
  · rw [diffWalk_currIdx]
    exact List.pairwise_lt_range' 0 curr.length
  · rw [diffWalk_nextIdx]
    exact List.pairwise_lt_range' 0 next.length

/-- Witness for C9 on `moreEndpointsOverlap` and `anotherEndpoints` of `TestDiffEndpoint`. -/
theorem DiffEndpoints_sorted_order_witness :
    SortedEndpoints moreEndpointsOverlap ∧ SortedEndpoints anotherEndpoints ∧
    SortedEndpoints ((diffCalls moreEndpointsOverlap anotherEndpoints).filterMap
      (DiffCall.reported moreEndpointsOverlap anotherEndpoints)) :=
  have h1 : SortedEndpoints moreEndpointsOverlap := by
    simp +decide [SortedEndpoints, moreEndpointsOverlap, compareEndpoints]
  have h2 : SortedEndpoints anotherEndpoints := by
    simp +decide [SortedEndpoints, anotherEndpoints, compareEndpoints]
  ⟨h1, h2, (DiffEndpoints_sorted_order moreEndpointsOverlap anotherEndpoints h1 h2).2.1⟩

theorem diffWalk_congr (as bs as' bs' : List Endpoint) (i0 j0 : Nat)
    (ha : as.map Endpoint.Addr = as'.map Endpoint.Addr)
    (hb : bs.map Endpoint.Addr = bs'.map Endpoint.Addr) :
    diffWalk as bs i0 j0 = diffWalk as' bs' i0 j0 := by
  induction as, bs, i0, j0 using diffWalk.induct generalizing as' bs' with
  | case1 =>
    cases as' <;> cases bs' <;> simp_all [diffWalk]
  | case2 a as i0 j0 ih =>
    cases as' with
    | nil => simp at ha
    | cons a' as' =>
      cases bs' with
      | cons b' bs' => simp at hb
      | nil =>
        simp only [List.map_cons, List.cons.injEq] at ha
        simp [diffWalk, ih as' [] ha.2 rfl]
  | case3 b bs i0 j0 ih =>
    cases bs' with
    | nil => simp at hb
    | cons b' bs' =>
      cases as' with
      | cons a' as' => simp at ha
      | nil =>
        simp only [List.map_cons, List.cons.injEq] at hb
        simp [diffWalk, ih [] bs' rfl hb.2]
  | case4 a as b bs i0 j0 h ih =>
    cases as' with
    | nil => simp at ha
    | cons a' as' =>
      cases bs' with
      | nil => simp at hb
      | cons b' bs' =>
        have ha' := ha
        have hb' := hb
        simp only [List.map_cons, List.cons.injEq] at ha' hb'
        have h' : compareEndpoints a' b' = .lt := by
          rw [← compareEndpoints_congr ha'.1 hb'.1]; exact h
        simp [diffWalk, h, h', ih as' (b' :: bs') ha'.2 hb]
  | case5 a as b bs i0 j0 h ih =>
    cases as' with
    | nil => simp at ha
    | cons a' as' =>
      cases bs' with
      | nil => simp at hb
      | cons b' bs' =>
        have ha' := ha
        have hb' := hb
        simp only [List.map_cons, List.cons.injEq] at ha' hb'
        have h' : compareEndpoints a' b' = .gt := by
          rw [← compareEndpoints_congr ha'.1 hb'.1]; exact h
        simp [diffWalk, h, h', ih (a' :: as') bs' ha hb'.2]
  | case6 a as b bs i0 j0 h ih =>
    cases as' with
    | nil => simp at ha
    | cons a' as' =>
      cases bs' with
      | nil => simp at hb
      | cons b' bs' =>
        simp only [List.map_cons, List.cons.injEq] at ha hb
        have h' : compareEndpoints a' b' = .eq := by
          rw [← compareEndpoints_congr ha.1 hb.1]; exact h
        simp [diffWalk, h, h', ih as' bs' ha.2 hb.2]

theorem diffWalk_same_identities (xs ys : List Endpoint) (i0 j0 : Nat)
    (h : xs.map Endpoint.Addr = ys.map Endpoint.Addr) :
    diffWalk xs ys i0 j0 = (List.range xs.length).map (fun k => DiffCall.eq (i0 + k) (j0 + k)) := by
  induction xs generalizing ys i0 j0 with
  | nil =>
    cases ys with
    | nil => simp [diffWalk]
    | cons y ys => simp at h
  | cons x xs ih =>
    cases ys with
    | nil => simp at h
    | cons y ys =>
      simp only [List.map_cons, List.cons.injEq] at h
      have hxy := (compareEndpoints_eq_iff x y).2 h.1
      simp only [diffWalk, hxy, ih ys (i0 + 1) (j0 + 1) h.2, List.length_cons, List.range_succ_eq_map,
        List.map_cons, List.map_map, Nat.add_zero, List.cons.injEq, true_and]
      apply List.map_congr_left
      intro k _
      simp only [Function.comp, DiffCall.eq.injEq]
      omega

theorem foldl_count_eq (l : List Nat) (f g : Nat → Nat) (c : Counters) :
    (l.map (fun k => DiffCall.eq (f k) (g k))).foldl (DiffCall.fire
      (fun _ _ c => { c with eq := c.eq + 1 })
      (fun _ _ c => { c with add := c.add + 1 })
      (fun _ _ c => { c with del := c.del + 1 })) c = ⟨c.eq + l.length, c.add, c.del⟩ := by
  induction l generalizing c with
  | nil => simp
  | cons k l ih =>
    simp only [List.map_cons, List.foldl_cons, DiffCall.fire, ih, List.length_cons,
      Counters.mk.injEq]
    refine ⟨?_, trivial, trivial⟩
    omega

/-- Claim C10: `DiffEndpoints` compares by identity `(host, port)` only. Lists `curr'`, `next'`
that carry the same identities at the same positions as `curr`, `next` (any `LoadFactor` and
`Local`) produce the same sequence of callbacks, whatever the callbacks do; and the diff of
a list against a list with the same identities at every position fires `eq` exactly
`len` times, at `(0,0), (1,1), ...`, and never `add` or `del`. -/
theorem DiffEndpoints_identity_only (curr curr' next next' : List Endpoint)
    (hc : curr.map Endpoint.Addr = curr'.map Endpoint.Addr)
    (hn : next.map Endpoint.Addr = next'.map Endpoint.Addr) :
    diffCalls curr next = diffCalls curr' next' ∧
    (∀ (σ : Type) (eq add del : Nat → Nat → σ → σ) (s : σ),
      DiffEndpoints curr next eq add del s = DiffEndpoints curr' next' eq add del s) ∧
    diffCalls curr curr' = (List.range curr.length).map (fun k => DiffCall.eq k k) ∧
    countCalls curr curr' = ⟨curr.length, 0, 0⟩ := by
  refine ⟨?_, ?_, ?_, ?_⟩
  · rw [diffCalls_eq_diffWalk, diffCalls_eq_diffWalk, diffWalk_congr curr next curr' next' 0 0 hc hn]
  · intro σ eq add del s
    unfold DiffEndpoints
    rw [diffWalk_congr curr next curr' next' 0 0 hc hn]
  · rw [diffCalls_eq_diffWalk, diffWalk_same_identities curr curr' 0 0 hc]
    simp
  · unfold countCalls DiffEndpoints
    rw [diffWalk_same_identities curr curr' 0 0 hc, foldl_count_eq]
    simp

/-- Witness for C10 on `someEndpoints` and `sameSomeEndpoints` of `TestDiffEndpoint`
(case "equals": `eq = 2, add = 0, del = 0`). -/
theorem DiffEndpoints_identity_only_witness :
    someEndpoints.map Endpoint.Addr = sameSomeEndpoints.map Endpoint.Addr ∧
    countCalls someEndpoints sameSomeEndpoints = ⟨2, 0, 0⟩ :=
  have h : someEndpoints.map Endpoint.Addr = sameSomeEndpoints.map Endpoint.Addr := by
    simp [someEndpoints, sameSomeEndpoints, Endpoint.Addr]
  ⟨h, (DiffEndpoints_identity_only someEndpoints sameSomeEndpoints someEndpoints
    sameSomeEndpoints h h).2.2.2⟩


/-! ## Incoming metadata callbacks -/

theorem WithIncomingCallback_value {σ : Type} (ctx : Context σ) (cb : MetadataCallback σ) :
    asMetadataCallback ((WithIncomingCallback ctx cb).Value .metadataCallbackKey) =
      some (match asMetadataCallback (ctx.Value .metadataCallbackKey) with
        | some existing => fun md s => cb md (existing md s)
        | none => cb) := by
  unfold WithIncomingCallback
  cases h : asMetadataCallback (ctx.Value .metadataCallbackKey) <;>
    simp [Context.Value, asMetadataCallback]

theorem foldl_WithIncomingCallback_some {σ : Type} (cs : List (MetadataCallback σ))
    (ctx : Context σ) (f : MetadataCallback σ)
    (h : asMetadataCallback (ctx.Value .metadataCallbackKey) = some f) :
    asMetadataCallback ((cs.foldl WithIncomingCallback ctx).Value .metadataCallbackKey) =
      some (fun md s => cs.foldl (fun s c => c md s) (f md s)) := by
  induction cs generalizing ctx f with
  | nil => simpa using h
  | cons c cs ih =>
    have hc := WithIncomingCallback_value ctx c
    rw [h] at hc
    simpa using ih (WithIncomingCallback ctx c) _ hc

/-- Claim C3: on a context `ctx0` without a callback, after attaching `c1, ..., cn` in this
order, `CallIncomingCallback` with non-empty metadata `md` has the effect of invoking
`c1 md`, then `c2 md`, ..., then `cn md`: each callback once, in the order of attachment. -/
theorem CallIncomingCallback_insertion_order {σ : Type} (ctx0 : Context σ)
    (h0 : asMetadataCallback (ctx0.Value .metadataCallbackKey) = none)
    (cs : List (MetadataCallback σ)) (md : MD) (hmd : md ≠ []) (s : σ) :
    CallIncomingCallback (cs.foldl WithIncomingCallback ctx0) md s =
      cs.foldl (fun s c => c md s) s := by
  have hlen : md.length ≠ 0 := by
    intro h; exact hmd (List.length_eq_zero.1 h)
  unfold CallIncomingCallback
  rw [if_neg hlen]
  cases cs with
  | nil => simp [h0]
  | cons c cs =>
    have hc := WithIncomingCallback_value ctx0 c
    rw [h0] at hc
    have := foldl_WithIncomingCallback_some cs (WithIncomingCallback ctx0 c) c hc
    simp only [List.foldl_cons]
    rw [this]

/-- Witness for C3: three callbacks that append their number and the metadata they receive to
a log are each invoked once, in the order of attachment. -/
theorem CallIncomingCallback_insertion_order_witness :
    CallIncomingCallback
      (WithIncomingCallback (WithIncomingCallback (WithIncomingCallback
        (Context.withValue .background (.other "k") (.other "v"))
        (fun md log => log ++ [(1, md)])) (fun md log => log ++ [(2, md)]))
        (fun md log => log ++ [(3, md)]))
      [("x-ydb-server-hints", ["session-close"])] ([] : List (Nat × MD)) =
    [(1, [("x-ydb-server-hints", ["session-close"])]),
     (2, [("x-ydb-server-hints", ["session-close"])]),
     (3, [("x-ydb-server-hints", ["session-close"])])] :=
  CallIncomingCallback_insertion_order
    (Context.withValue .background (.other "k") (.other "v")) (by simp [Context.Value, asMetadataCallback])
    [fun md log => log ++ [(1, md)], fun md log => log ++ [(2, md)],
      fun md log => log ++ [(3, md)]]
    [("x-ydb-server-hints", ["session-close"])] (by simp) []

/-! ## The round-robin balancer of the tests -/

theorem wrapInt_of_lt (k : Nat) (h : k + 1 < 2 ^ 63) : wrapInt ((k : Int) + 1) = ((k + 1 : Nat) : Int) := by
  unfold wrapInt intBits
  norm_num at h ⊢
  omega

theorem simpleBalancer_Next_nonneg (cs : List Element) (hn : 0 < cs.length) (k : Nat) :
    simpleBalancer.Next ⟨cs, (k : Int)⟩ =
      .ok ((cs.get ⟨k % cs.length, Nat.mod_lt k hn⟩).conn, ⟨cs, wrapInt ((k : Int) + 1)⟩) := by
  have hne : cs.length ≠ 0 := Nat.pos_iff_ne_zero.1 hn
  have hlt : k % cs.length < cs.length := Nat.mod_lt k hn
  have hmod : Int.tmod (k : Int) (cs.length : Int) = ((k % cs.length : Nat) : Int) :=
    (Int.ofNat_tmod k cs.length).symm
  have hnot : ¬ (((k % cs.length : Nat) : Int) < 0) := by omega
  simp only [simpleBalancer.Next, stubBalancer.Next, simpleBalancer.OnNext, hne, if_false, hmod,
    hnot, Int.toNat_ofNat, List.getElem?_eq_getElem hlt, List.get_eq_getElem]

theorem simpleBalancer_after_nonneg (cs : List Element) (hn : 0 < cs.length) (k i : Nat)
    (h : i + k < 2 ^ 63) :
    simpleBalancer.after k ⟨cs, (i : Int)⟩ = .ok ⟨cs, ((i + k : Nat) : Int)⟩ := by
  induction k generalizing i with
  | zero => simp [simpleBalancer.after]
  | succ k ih =>
    have h1 : i + 1 < 2 ^ 63 := by omega
    simp only [simpleBalancer.after, simpleBalancer_Next_nonneg cs hn i, wrapInt_of_lt i h1]
    rw [ih (i + 1) (by omega)]
    congr 3
    omega

theorem simpleBalancer_nthNext_nonneg (cs : List Element) (hn : 0 < cs.length) (k : Nat)
    (h : k < 2 ^ 63) :
    simpleBalancer.nthNext k (simpleBalancer.init cs) =
      .ok (cs.get ⟨k % cs.length, Nat.mod_lt k hn⟩).conn := by
  have := simpleBalancer_after_nonneg cs hn k 0 (by omega)
  simp only [Nat.zero_add, Nat.cast_zero] at this
  simp only [simpleBalancer.nthNext, simpleBalancer.init, this,
    simpleBalancer_Next_nonneg cs hn k, Except.map]

theorem simpleBalancer_after_succ (k : Nat) (b : simpleBalancer) :
    simpleBalancer.after (k + 1) b =
      match simpleBalancer.after k b with
      | .ok b' =>
        match b'.Next with
        | .ok (_, b'') => .ok b''
        | .error p => .error p
      | .error p => .error p := by
  induction k generalizing b with
  | zero =>
    simp only [simpleBalancer.after]
  | succ k ih =>
    rw [simpleBalancer.after]
    cases hb : b.Next with
    | error p => simp [simpleBalancer.after, hb]
    | ok r =>
      simp only [ih r.2]
      conv_rhs => rw [simpleBalancer.after]
      simp [hb]

/-- Claim C7 (amended): for the balancer built by `simpleBalancer` holding `n >= 1` connections,
with no insert or remove in between, the `k`-th call of `Next` returns `cs[k mod n]` for every
`k < 2^63` (the cursor is a 64-bit `int`); while the calls stay below `2^63`, call `k` and call
`k + n` return the same connection, and `n` consecutive calls return the connections of a
rotation of `cs`, that is every connection exactly once. -/
theorem simpleBalancer_round_robin (cs : List Element) (hn : 0 < cs.length) (k : Nat)
    (hk : k < 2 ^ 63) :
    simpleBalancer.nthNext k (simpleBalancer.init cs) =
      .ok (cs.get ⟨k % cs.length, Nat.mod_lt k hn⟩).conn ∧
    (k + cs.length < 2 ^ 63 →
      simpleBalancer.nthNext (k + cs.length) (simpleBalancer.init cs) =
        simpleBalancer.nthNext k (simpleBalancer.init cs)) ∧
    (k + cs.length ≤ 2 ^ 63 →
      (List.range cs.length).map (fun t => simpleBalancer.nthNext (k + t) (simpleBalancer.init cs))
        = (cs.rotate k).map (fun e => Except.ok e.conn) ∧
      List.Perm
        ((List.range cs.length).map
          (fun t => simpleBalancer.nthNext (k + t) (simpleBalancer.init cs)))
        (cs.map (fun e => Except.ok e.conn))) := by
  refine ⟨simpleBalancer_nthNext_nonneg cs hn k hk, ?_, ?_⟩
  · intro h
    rw [simpleBalancer_nthNext_nonneg cs hn k hk, simpleBalancer_nthNext_nonneg cs hn _ h]
    simp only [Nat.add_mod_right]
  · intro h
    have heq : (List.range cs.length).map
        (fun t => simpleBalancer.nthNext (k + t) (simpleBalancer.init cs))
        = (cs.rotate k).map (fun e => Except.ok e.conn) := by
      apply List.ext_getElem
      · simp
      · intro t h1 h2
        have ht : t < cs.length := by simpa using h1
        simp only [List.getElem_map, List.getElem_range, List.getElem_rotate]
        rw [simpleBalancer_nthNext_nonneg cs hn (k + t) (by omega)]
        simp only [List.get_eq_getElem, Nat.add_comm]
    refine ⟨heq, ?_⟩
    rw [heq]
    exact (List.rotate_perm cs k).map _

/-- Witness for C7 (amended) on the three connections `roundRobinConns`: the call number 4
returns the connection at position `4 mod 3`. -/
theorem simpleBalancer_round_robin_witness :
    simpleBalancer.nthNext 4 (simpleBalancer.init roundRobinConns) =
      .ok (roundRobinConns.get ⟨4 % roundRobinConns.length, by decide⟩).conn :=
  (simpleBalancer_round_robin roundRobinConns (by decide) 4 (by decide)).1

theorem simpleBalancer_nthNext_succ (cs : List Element) (hn : 0 < cs.length) (N K : Nat)
    (hN : N = K + 1) (hK : K < 2 ^ 63) :
    simpleBalancer.nthNext N (simpleBalancer.init cs) =
      (simpleBalancer.Next ⟨cs, wrapInt ((K : Int) + 1)⟩).map Prod.fst := by
  subst hN
  have h1 := simpleBalancer_after_nonneg cs hn K 0 (by omega)
  have h2 := simpleBalancer_after_succ K ⟨cs, ((0 : Nat) : Int)⟩
  simp only [h1, simpleBalancer_Next_nonneg cs hn, Nat.zero_add] at h2
  have h2' : simpleBalancer.after (K + 1) ⟨cs, 0⟩ = _ := h2
  simp only [simpleBalancer.nthNext, simpleBalancer.init, h2']

theorem wrapInt_overflow : wrapInt (((2 ^ 63 - 1 : Nat) : Int) + 1) = -2 ^ 63 := by
  unfold wrapInt intBits
  norm_num

/-- Counterexample to C7 as stated: with three connections, after `2^63` calls the cursor has
wrapped around to `-2^63`, so `i % n = -2` and the call number `k = 2^63` panics with an index
out of range instead of returning `cs[k mod 3]`. -/
theorem simpleBalancer_round_robin_overflow :
    simpleBalancer.nthNext (2 ^ 63) (simpleBalancer.init roundRobinConns) =
      .error .indexOutOfRange ∧
    simpleBalancer.nthNext (2 ^ 63) (simpleBalancer.init roundRobinConns) ≠
      .ok (roundRobinConns.get ⟨2 ^ 63 % roundRobinConns.length, by decide⟩).conn := by
  have h3 : simpleBalancer.nthNext (2 ^ 63) (simpleBalancer.init roundRobinConns) =
      .error .indexOutOfRange := by
    rw [simpleBalancer_nthNext_succ roundRobinConns (by decide) (2 ^ 63) (2 ^ 63 - 1)
      (by norm_num) (by norm_num), wrapInt_overflow]
    simp only [simpleBalancer.Next, stubBalancer.Next, simpleBalancer.OnNext]
    rw [if_neg (by decide), if_pos (by decide)]
    rfl
  exact ⟨h3, by rw [h3]; exact fun h => by cases h⟩

/-- Claim C8: for every state of the balancer built by `simpleBalancer` with non-nil
connections and a cursor `i >= 0`, `Next` returns (it does not panic), it returns `nil` if and
only if the balancer holds zero connections, and when it holds at least one the index `i % n`
is in bounds and the returned connection is one of the held ones. -/
theorem simpleBalancer_Next_nil_iff_empty (b : simpleBalancer) (hi : 0 ≤ b.i)
    (hnn : ∀ e ∈ b.cs, e.conn ≠ none) :
    (∃ c b', b.Next = .ok (c, b') ∧ (c = none ↔ b.cs.length = 0)) ∧
    (0 < b.cs.length →
      0 ≤ Int.tmod b.i b.cs.length ∧ Int.tmod b.i b.cs.length < b.cs.length ∧
      ∃ e ∈ b.cs, ∃ b', b.Next = .ok (e.conn, b')) := by
  obtain ⟨cs, i⟩ := b
  obtain ⟨k, rfl⟩ := Int.eq_ofNat_of_zero_le hi
  simp only at hnn ⊢
  rcases Nat.eq_zero_or_pos cs.length with h0 | hpos
  · refine ⟨⟨none, ⟨cs, k⟩, ?_, by simp [h0]⟩, fun h => absurd h (by omega)⟩
    simp [simpleBalancer.Next, stubBalancer.Next, simpleBalancer.OnNext, h0]
  · have hnext := simpleBalancer_Next_nonneg cs hpos k
    have hmem : cs.get ⟨k % cs.length, Nat.mod_lt k hpos⟩ ∈ cs := List.get_mem _ _ _
    refine ⟨⟨_, _, hnext, ?_⟩, fun _ => ⟨?_, ?_, _, hmem, _, hnext⟩⟩
    · constructor
      · intro h; exact absurd h (hnn _ hmem)
      · intro h; omega
    · exact Int.tmod_nonneg _ (Int.ofNat_nonneg k)
    · exact Int.tmod_lt_of_pos _ (by exact_mod_cast hpos)

/-- Witness for C8 on the three connections `roundRobinConns` with the cursor at 7. -/
theorem simpleBalancer_Next_nil_iff_empty_witness :
    ∃ c b', simpleBalancer.Next ⟨roundRobinConns, 7⟩ = .ok (c, b') ∧
      (c = none ↔ roundRobinConns.length = 0) :=
  (simpleBalancer_Next_nil_iff_empty ⟨roundRobinConns, 7⟩ (by decide) (by decide)).1


/-! ## Cluster index operations -/

theorem erase_insert_of_not_mem (a : Addr) (v : Entry) (s : AList (fun _ : Addr => Entry))
    (h : a ∉ s) : (s.insert a v).erase a = s := by
  apply AList.ext
  have hk : a ∉ s.entries.keys := h
  simp [AList.erase, AList.insert_entries_of_neg h, List.kerase_cons_eq,
    List.kerase_of_not_mem_keys hk]

theorem Insert_of_not_mem (c : Cluster) (e : Endpoint) (h : e.Addr ∉ c.index) :
    c.Insert e =
      { c with
        index := c.index.insert e.Addr ⟨e.Info, .Offline⟩
        trackerQueue := c.trackerQueue ++ [e.Addr] } := by
  unfold Cluster.Insert
  rw [AList.lookup_eq_none.2 h]

theorem trackerVisit_refuse (c : Cluster) (a : Addr) :
    (c.trackerVisit (fun _ => false) a).index = c.index ∧
    (c.trackerVisit (fun _ => false) a).balancer = c.balancer ∧
    ∀ x ∈ (c.trackerVisit (fun _ => false) a).trackerQueue, x ∈ c.trackerQueue := by
  unfold Cluster.trackerVisit
  cases h : c.index.lookup a with
  | none =>
    refine ⟨rfl, rfl, ?_⟩
    intro x hx
    exact (List.mem_filter.1 hx).1
  | some entry => simp

theorem foldl_trackerVisit_refuse (l : List Addr) (c : Cluster) :
    (l.foldl (Cluster.trackerVisit (fun _ => false)) c).index = c.index ∧
    (l.foldl (Cluster.trackerVisit (fun _ => false)) c).balancer = c.balancer ∧
    ∀ x ∈ (l.foldl (Cluster.trackerVisit (fun _ => false)) c).trackerQueue,
      x ∈ c.trackerQueue := by
  induction l generalizing c with
  | nil => simp
  | cons a l ih =>
    obtain ⟨h1, h2, h3⟩ := ih (c.trackerVisit (fun _ => false) a)
    obtain ⟨g1, g2, g3⟩ := trackerVisit_refuse c a
    exact ⟨h1.trans g1, h2.trans g2, fun x hx => g3 x (h3 x hx)⟩

theorem Remove_of_offline (c : Cluster) (e : Endpoint) (info : Info)
    (h : c.index.lookup e.Addr = some ⟨info, .Offline⟩) :
    c.Remove e =
      { index := c.index.erase e.Addr
        balancer := c.balancer
        trackerQueue := c.trackerQueue.filter (fun a => a ≠ e.Addr) } := by
  unfold Cluster.Remove
  rw [h]
  simp

/-- Claim C5: for an identity `E` that is not in the cluster index, `Insert(E)` followed by
`Remove(E)` gives back the index (so `Stats` visits the same endpoints), leaves the balancer
as it was (same size) and leaves a tracker queue without `E` (the queue itself when `E` was
not queued before). The same holds when a tracker iteration whose dialer always refuses runs
between the two calls, and starting from an empty queue the tracker's next iteration then
sees 0 connections to track. -/
theorem Insert_Remove_restores (c : Cluster) (e : Endpoint) (h : e.Addr ∉ c.index) :
    ((c.Insert e).Remove e).index = c.index ∧
    (∀ (σ : Type) (visit : Addr → Entry → σ → σ) (s : σ),
      ((c.Insert e).Remove e).Stats visit s = c.Stats visit s) ∧
    ((c.Insert e).Remove e).balancer = c.balancer ∧
    ((c.Insert e).Remove e).balancer.length = c.balancer.length ∧
    e.Addr ∉ ((c.Insert e).Remove e).trackerQueue ∧
    (e.Addr ∉ c.trackerQueue → ((c.Insert e).Remove e).trackerQueue = c.trackerQueue) ∧
    (((c.Insert e).trackerIteration (fun _ => false)).Remove e).index = c.index ∧
    (((c.Insert e).trackerIteration (fun _ => false)).Remove e).balancer = c.balancer ∧
    e.Addr ∉ (((c.Insert e).trackerIteration (fun _ => false)).Remove e).trackerQueue ∧
    (c.trackerQueue = [] →
      (((c.Insert e).trackerIteration (fun _ => false)).Remove e).tracking = 0) := by
  have hins := Insert_of_not_mem c e h
  have hlook : (c.Insert e).index.lookup e.Addr = some ⟨e.Info, .Offline⟩ := by
    rw [hins]; exact AList.lookup_insert _
  have hrem := Remove_of_offline (c.Insert e) e e.Info hlook
  have hidx : ((c.Insert e).Remove e).index = c.index := by
    rw [hrem, hins]
    exact erase_insert_of_not_mem _ _ _ h
  obtain ⟨t1, t2, t3⟩ := foldl_trackerVisit_refuse (c.Insert e).trackerQueue (c.Insert e)
  have hlook' : ((c.Insert e).trackerIteration (fun _ => false)).index.lookup e.Addr =
      some ⟨e.Info, .Offline⟩ := by
    unfold Cluster.trackerIteration
    rw [t1]; exact hlook
  have hrem' := Remove_of_offline _ e e.Info hlook'
  refine ⟨hidx, ?_, ?_, ?_, ?_, ?_, ?_, ?_, ?_, ?_⟩
  · intro σ visit s
    unfold Cluster.Stats
    rw [hidx]
  · rw [hrem, hins]
  · rw [hrem, hins]
  · rw [hrem]
    simp [List.mem_filter]
  · intro hq
    rw [hrem, hins]
    simp only [List.filter_append, List.filter_cons, List.filter_nil, ne_eq, not_true_eq_false,
      decide_False, Bool.false_eq_true, if_false, List.append_nil]
    rw [List.filter_eq_self]
    intro a ha
    simp only [decide_eq_true_eq]
    rintro rfl
    exact hq ha
  · rw [hrem']
    unfold Cluster.trackerIteration
    simp only [t1]
    rw [hins]
    exact erase_insert_of_not_mem _ _ _ h
  · rw [hrem']
    unfold Cluster.trackerIteration
    simp only [t2]
    rw [hins]
  · rw [hrem']
    simp [List.mem_filter]
  · intro hq
    rw [hrem']
    unfold Cluster.tracking Cluster.trackerIteration
    simp only [List.length_eq_zero, List.filter_eq_nil_iff, decide_eq_true_eq, ne_eq, not_not]
    intro a ha
    have := t3 a ha
    rw [hins] at this
    simpa [hq] using this

/-- Witness for C5: `TestClusterRemoveOffline` inserts and removes the endpoint `foo` on a
fresh cluster. -/
theorem Insert_Remove_restores_witness :
    ((Cluster.empty.Insert ⟨"foo", 0, 0, false⟩).Remove ⟨"foo", 0, 0, false⟩).index =
      Cluster.empty.index ∧
    (((Cluster.empty.Insert ⟨"foo", 0, 0, false⟩).trackerIteration (fun _ => false)).Remove
      ⟨"foo", 0, 0, false⟩).tracking = 0 :=
  have h := Insert_Remove_restores Cluster.empty ⟨"foo", 0, 0, false⟩ (AList.not_mem_empty _)
  ⟨h.1, h.2.2.2.2.2.2.2.2.2 rfl⟩


theorem mem_Update (c : Cluster) (e : Endpoint) (x : Addr) :
    x ∈ (c.Update e).index ↔ x ∈ c.index := by
  unfold Cluster.Update
  cases h : c.index.lookup e.Addr with
  | none => rfl
  | some entry => exact AList.mem_replace

theorem mem_Insert (c : Cluster) (e : Endpoint) (x : Addr) :
    x ∈ (c.Insert e).index ↔ x = e.Addr ∨ x ∈ c.index := by
  unfold Cluster.Insert
  cases h : c.index.lookup e.Addr with
  | none => exact AList.mem_insert _
  | some entry =>
    have hm : e.Addr ∈ c.index := AList.lookup_isSome.1 (by rw [h]; rfl)
    simp only [mem_Update]
    constructor
    · exact Or.inr
    · rintro (rfl | hx)
      · exact hm
      · exact hx

theorem mem_Remove (c : Cluster) (e : Endpoint) (x : Addr) :
    x ∈ (c.Remove e).index ↔ x ≠ e.Addr ∧ x ∈ c.index := by
  unfold Cluster.Remove
  cases h : c.index.lookup e.Addr with
  | none =>
    have hm : e.Addr ∉ c.index := AList.lookup_eq_none.1 h
    constructor
    · intro hx
      exact ⟨fun he => hm (he ▸ hx), hx⟩
    · exact fun hx => hx.2
  | some entry => exact AList.mem_erase

theorem SortEndpoints_sorted (l : List Endpoint) : SortedEndpoints (SortEndpoints l) := by
  unfold SortedEndpoints SortEndpoints
  exact @List.sorted_insertionSort Endpoint (fun a b => compareEndpoints a b ≠ .gt) _
    ⟨fun a b => by
      rw [compareEndpoints_ne_gt_iff, compareEndpoints_ne_gt_iff]
      exact le_total _ _⟩
    ⟨fun a b c h1 h2 => compareEndpoints_ne_gt_trans h1 h2⟩ l

theorem SortEndpoints_perm (l : List Endpoint) : (SortEndpoints l).Perm l :=
  List.perm_insertionSort _ l

theorem SortEndpoints_strict (l : List Endpoint) (h : (l.map Endpoint.Addr).Nodup) :
    StrictSortedEndpoints (SortEndpoints l) := by
  have hs := SortEndpoints_sorted l
  have hn : ((SortEndpoints l).map Endpoint.Addr).Nodup :=
    ((SortEndpoints_perm l).map Endpoint.Addr).nodup_iff.2 h
  have hp : (SortEndpoints l).Pairwise (fun a b => a.Addr ≠ b.Addr) := by
    simpa [List.Nodup, List.pairwise_map] using hn
  unfold StrictSortedEndpoints
  unfold SortedEndpoints at hs
  refine (hs.and hp).imp ?_
  rintro a b ⟨h1, h2⟩
  cases hcmp : compareEndpoints a b with
  | lt => rfl
  | eq => exact absurd ((compareEndpoints_eq_iff a b).1 hcmp) h2
  | gt => exact absurd hcmp h1

theorem mergeWalk_index (curr next : List Endpoint) (as bs : List Endpoint) (i0 j0 : Nat)
    (hc : curr.drop i0 = as) (hn : next.drop j0 = bs)
    (ha : StrictSortedEndpoints as) (hb : StrictSortedEndpoints bs)
    (c : Cluster) (hidx : ∀ a ∈ as, a.Addr ∈ c.index) :
    ∃ c', (diffWalk as bs i0 j0).foldl (DiffCall.fire
        (fun _ j r => do let c ← r; let e ← index? next j; pure (c.Update e))
        (fun _ j r => do let c ← r; let e ← index? next j; pure (c.Insert e))
        (fun i _ r => do let c ← r; let e ← index? curr i; pure (c.Remove e))) (.ok c)
        = Except.ok c' ∧
      ∀ x, x ∈ c'.index ↔
        (x ∈ c.index ∧ x ∉ as.map Endpoint.Addr) ∨ x ∈ bs.map Endpoint.Addr := by
  induction as, bs, i0, j0 using diffWalk.induct generalizing c with
  | case1 => exact ⟨c, by simp [diffWalk], by simp⟩
  | case2 a as i0 j0 ih =>
    obtain ⟨hget, hdrop⟩ := drop_cons_getElem? hc
    have hidx' : ∀ a' ∈ as, a'.Addr ∈ (c.Remove a).index := fun a' ha' =>
      (mem_Remove c a _).2
        ⟨(compareEndpoints_lt_ne (ha.head_lt a' ha')).symm, hidx a' (List.mem_cons_of_mem _ ha')⟩
    obtain ⟨c', h1, h2⟩ := ih hdrop hn ha.strict_tail hb (c.Remove a) hidx'
    refine ⟨c', ?_, ?_⟩
    · simp only [diffWalk, List.foldl_cons, DiffCall.fire, index?, hget]
      exact h1
    · intro x
      rw [h2 x, mem_Remove]
      simp only [List.map_cons, List.mem_cons, not_or, List.map_nil, List.not_mem_nil, or_false]
      tauto
  | case3 b bs i0 j0 ih =>
    obtain ⟨hget, hdrop⟩ := drop_cons_getElem? hn
    have hidx' : ∀ a' ∈ ([] : List Endpoint), a'.Addr ∈ (c.Insert b).index := by simp
    obtain ⟨c', h1, h2⟩ := ih hc hdrop ha hb.strict_tail (c.Insert b) hidx'
    refine ⟨c', ?_, ?_⟩
    · simp only [diffWalk, List.foldl_cons, DiffCall.fire, index?, hget]
      exact h1
    · intro x
      rw [h2 x, mem_Insert]
      simp only [List.map_cons, List.mem_cons, List.map_nil, List.not_mem_nil, not_false_eq_true,
        and_true]
      tauto
  | case4 a as b bs i0 j0 h ih =>
    obtain ⟨hget, hdrop⟩ := drop_cons_getElem? hc
    have hidx' : ∀ a' ∈ as, a'.Addr ∈ (c.Remove a).index := fun a' ha' =>
      (mem_Remove c a _).2
        ⟨(compareEndpoints_lt_ne (ha.head_lt a' ha')).symm, hidx a' (List.mem_cons_of_mem _ ha')⟩
    obtain ⟨c', h1, h2⟩ := ih hdrop hn ha.strict_tail hb (c.Remove a) hidx'
    refine ⟨c', ?_, ?_⟩
    · simp only [diffWalk, h, List.foldl_cons, DiffCall.fire, index?, hget]
      exact h1
    · intro x
      rw [h2 x, mem_Remove]
      have hne : a.Addr ∉ (b :: bs).map Endpoint.Addr := by
        intro hm
        obtain ⟨b', hb', hab⟩ := List.mem_map.1 hm
        exact compareEndpoints_lt_ne (StrictSortedEndpoints.lt_all h hb b' hb') hab.symm
      simp only [List.map_cons, List.mem_cons, not_or] at hne ⊢
      constructor
      · rintro (⟨⟨g1, g2⟩, g3⟩ | g)
        · exact Or.inl ⟨g2, g1, g3⟩
        · exact Or.inr g
      · rintro (⟨g1, g2, g3⟩ | g)
        · exact Or.inl ⟨⟨g2, g1⟩, g3⟩
        · exact Or.inr g
  | case5 a as b bs i0 j0 h ih =>
    obtain ⟨hget, hdrop⟩ := drop_cons_getElem? hn
    have hlt := (compareEndpoints_gt_iff a b).1 h
    have hidx' : ∀ a' ∈ a :: as, a'.Addr ∈ (c.Insert b).index := fun a' ha' =>
      (mem_Insert c b _).2 (Or.inr (hidx a' ha'))
    obtain ⟨c', h1, h2⟩ := ih hc hdrop ha hb.strict_tail (c.Insert b) hidx'
    refine ⟨c', ?_, ?_⟩
    · simp only [diffWalk, h, List.foldl_cons, DiffCall.fire, index?, hget]
      exact h1
    · intro x
      rw [h2 x, mem_Insert]
      have hne : b.Addr ∉ (a :: as).map Endpoint.Addr := by
        intro hm
        obtain ⟨a', ha', hab⟩ := List.mem_map.1 hm
        exact compareEndpoints_lt_ne (StrictSortedEndpoints.lt_all hlt ha a' ha') hab.symm
      simp only [List.map_cons, List.mem_cons, not_or] at hne ⊢
      constructor
      · rintro (⟨rfl | g1, g2⟩ | g)
        · exact Or.inr (Or.inl rfl)
        · exact Or.inl ⟨g1, g2⟩
        · exact Or.inr (Or.inr g)
      · rintro (g | rfl | g)
        · exact Or.inl ⟨Or.inr g.1, g.2⟩
        · exact Or.inl ⟨Or.inl rfl, hne⟩
        · exact Or.inr g
  | case6 a as b bs i0 j0 h ih =>
    obtain ⟨-, hdrop⟩ := drop_cons_getElem? hc
    obtain ⟨hget, hdrop'⟩ := drop_cons_getElem? hn
    have hab := (compareEndpoints_eq_iff a b).1 h
    have hidx' : ∀ a' ∈ as, a'.Addr ∈ (c.Update b).index := fun a' ha' =>
      (mem_Update c b _).2 (hidx a' (List.mem_cons_of_mem _ ha'))
    obtain ⟨c', h1, h2⟩ := ih hdrop hdrop' ha.strict_tail hb.strict_tail (c.Update b) hidx'
    refine ⟨c', ?_, ?_⟩
    · simp only [diffWalk, h, List.foldl_cons, DiffCall.fire, index?, hget]
      exact h1
    · intro x
      rw [h2 x, mem_Update]
      have hain : a.Addr ∈ c.index := hidx a (List.mem_cons_self _ _)
      have hnas : a.Addr ∉ as.map Endpoint.Addr := by
        intro hm
        obtain ⟨a', ha', haa⟩ := List.mem_map.1 hm
        exact compareEndpoints_lt_ne (ha.head_lt a' ha') haa.symm
      simp only [List.map_cons, List.mem_cons, not_or]
      constructor
      · rintro (⟨g1, g2⟩ | g)
        · by_cases hx : x = a.Addr
          · exact Or.inr (Or.inl (hx.trans hab))
          · exact Or.inl ⟨g1, hx, g2⟩
        · exact Or.inr (Or.inr g)
      · rintro (⟨g1, -, g3⟩ | g | g)
        · exact Or.inl ⟨g1, g3⟩
        · rw [g, ← hab]
          exact Or.inl ⟨hain, hnas⟩
        · exact Or.inr g

/-- Claim C4: for endpoint lists `curr` and `next` without duplicate identities and a cluster
whose index holds exactly the identities of `curr`, `mergeEndpointIntoCluster` returns (no
index is out of range) and leaves the index holding exactly the identities of `next`: its
size is `len(next)`, every identity of `curr` absent from `next` is gone and every identity
of `next` is present. -/
theorem mergeEndpointIntoCluster_index (c : Cluster) (curr next : List Endpoint)
    (hc : (curr.map Endpoint.Addr).Nodup) (hn : (next.map Endpoint.Addr).Nodup)
    (hidx : ∀ a, a ∈ c.index ↔ a ∈ curr.map Endpoint.Addr) :
    ∃ c', mergeEndpointIntoCluster c curr next = .ok c' ∧
      (∀ a, a ∈ c'.index ↔ a ∈ next.map Endpoint.Addr) ∧
      c'.index.keys.length = next.length ∧
      (∀ e ∈ curr, e.Addr ∉ next.map Endpoint.Addr → e.Addr ∉ c'.index) ∧
      (∀ e ∈ next, e.Addr ∈ c'.index) := by
  have hpc := SortEndpoints_perm curr
  have hpn := SortEndpoints_perm next
  have hidx' : ∀ a ∈ SortEndpoints curr, a.Addr ∈ c.index := fun a ha =>
    (hidx _).2 (List.mem_map_of_mem _ (hpc.mem_iff.1 ha))
  obtain ⟨c', h1, h2⟩ := mergeWalk_index (SortEndpoints curr) (SortEndpoints next)
    (SortEndpoints curr) (SortEndpoints next) 0 0 rfl rfl
    (SortEndpoints_strict curr hc) (SortEndpoints_strict next hn) c hidx'
  have hmem : ∀ a, a ∈ c'.index ↔ a ∈ next.map Endpoint.Addr := by
    intro a
    rw [h2 a, (hpc.map Endpoint.Addr).mem_iff, (hpn.map Endpoint.Addr).mem_iff]
    constructor
    · rintro (⟨g1, g2⟩ | g)
      · exact absurd ((hidx a).1 g1) g2
      · exact g
    · exact Or.inr
  refine ⟨c', h1, hmem, ?_, ?_, ?_⟩
  · have hperm : c'.index.keys.Perm (next.map Endpoint.Addr) :=
      (List.perm_ext_iff_of_nodup c'.index.keys_nodup hn).2 (fun a => by
        rw [← AList.mem_keys]; exact hmem a)
    simpa using hperm.length_eq
  · intro e _ he
    exact fun h => he ((hmem _).1 h)
  · intro e he
    exact (hmem _).2 (List.mem_map_of_mem _ he)

/-- Witness for C4: scenario C of the spec, `curr = [foo/0, foo/123]` and
`next = [foo/0, bar/0, bar/123]` of `TestClusterMergeEndpoints`, on a cluster whose index
holds `foo/0` and `foo/123`. -/
theorem mergeEndpointIntoCluster_index_witness :
    ∃ c', mergeEndpointIntoCluster scenarioCluster scenarioEndpoints scenarioNextEndpoints
        = .ok c' ∧
      (∀ a, a ∈ c'.index ↔ a ∈ scenarioNextEndpoints.map Endpoint.Addr) ∧
      c'.index.keys.length = scenarioNextEndpoints.length ∧
      (∀ e ∈ scenarioEndpoints, e.Addr ∉ scenarioNextEndpoints.map Endpoint.Addr →
        e.Addr ∉ c'.index) ∧
      (∀ e ∈ scenarioNextEndpoints, e.Addr ∈ c'.index) :=
  mergeEndpointIntoCluster_index scenarioCluster scenarioEndpoints scenarioNextEndpoints
    (by decide) (by decide)
    (by
      intro a
      simp only [scenarioCluster, AList.mem_insert, AList.insert_empty]
      rw [AList.mem_keys, AList.keys_singleton]
      simp only [scenarioEndpoints, Endpoint.Addr, List.map_cons, List.map_nil, List.mem_cons,
        List.mem_singleton, List.not_mem_nil, or_false]
      tauto)


/-! ## Incoming metadata callbacks: attachment and guards -/

/-- Claim C11: `WithIncomingCallback(ctx, cb)` is copy-on-write. It returns a new context, a
`WithValue` node on top of `ctx`; `ctx` itself is an immutable value and stays as it is, so
what `CallIncomingCallback` does on `ctx` is the same before and after the attachment. In the
new context every other key has the value it has in `ctx`, and `CallIncomingCallback` with
non-empty metadata runs what it runs on `ctx` and then `cb`. -/
theorem WithIncomingCallback_copy_on_write {σ : Type} (ctx : Context σ)
    (cb : MetadataCallback σ) (md : MD) (s : σ) :
    (∃ val, WithIncomingCallback ctx cb = .withValue ctx .metadataCallbackKey val) ∧
    WithIncomingCallback ctx cb ≠ ctx ∧
    (∀ k, k ≠ .metadataCallbackKey → (WithIncomingCallback ctx cb).Value k = ctx.Value k) ∧
    (md ≠ [] →
      CallIncomingCallback (WithIncomingCallback ctx cb) md s =
        cb md (CallIncomingCallback ctx md s)) ∧
    (md = [] → CallIncomingCallback (WithIncomingCallback ctx cb) md s = s) := by
  have hval := WithIncomingCallback_value ctx cb
  refine ⟨?_, ?_, ?_, ?_, ?_⟩
  · unfold WithIncomingCallback
    cases asMetadataCallback (ctx.Value .metadataCallbackKey) with
    | none => exact ⟨_, rfl⟩
    | some f => exact ⟨_, rfl⟩
  · intro h
    have hsz := congrArg sizeOf h
    unfold WithIncomingCallback at hsz
    cases hc : asMetadataCallback (ctx.Value .metadataCallbackKey) with
    | none =>
      rw [hc] at hsz
      simp only [Context.withValue.sizeOf_spec] at hsz
      omega
    | some f =>
      rw [hc] at hsz
      simp only [Context.withValue.sizeOf_spec] at hsz
      omega
  · intro k hk
    unfold WithIncomingCallback
    cases asMetadataCallback (ctx.Value .metadataCallbackKey) with
    | none => simp [Context.Value, Ne.symm hk]
    | some f => simp [Context.Value, Ne.symm hk]
  · intro hmd
    have hlen : md.length ≠ 0 := fun h => hmd (List.length_eq_zero.1 h)
    unfold CallIncomingCallback
    rw [if_neg hlen, if_neg hlen, hval]
    cases asMetadataCallback (ctx.Value .metadataCallbackKey) with
    | none => rfl
    | some f => rfl
  · intro hmd
    subst hmd
    rfl

/-- Witness for C11: attaching a second logging callback to a context that carries one. -/
theorem WithIncomingCallback_copy_on_write_witness :
    CallIncomingCallback
      (WithIncomingCallback
        (WithIncomingCallback .background (fun md log => log ++ [(1, md)]))
        (fun md log => log ++ [(2, md)]))
      [("x-ydb-server-hints", ["session-close"])] ([] : List (Nat × MD)) =
    (fun md log => log ++ [(2, md)]) [("x-ydb-server-hints", ["session-close"])]
      (CallIncomingCallback
        (WithIncomingCallback .background (fun md log => log ++ [(1, md)]))
        [("x-ydb-server-hints", ["session-close"])] ([] : List (Nat × MD))) :=
  (WithIncomingCallback_copy_on_write
    (WithIncomingCallback .background (fun md log => log ++ [(1, md)]))
    (fun md log => log ++ [(2, md)])
    [("x-ydb-server-hints", ["session-close"])] []).2.2.2.1 (by simp)

/-- Claim C19: `CallIncomingCallback(ctx, md)` invokes a callback if and only if `md` has at
least one entry and `ctx` carries a metadata callback: with empty metadata nothing happens
whatever is attached, without an attached callback nothing happens whatever the metadata,
and with non-empty metadata and an attached callback the call is the call of that
callback on `md`. -/
theorem CallIncomingCallback_guards {σ : Type} (ctx : Context σ) (md : MD) (s : σ) :
    (md.length = 0 → CallIncomingCallback ctx md s = s) ∧
    (asMetadataCallback (ctx.Value .metadataCallbackKey) = none →
      CallIncomingCallback ctx md s = s) ∧
    (∀ callback, md.length ≠ 0 →
      asMetadataCallback (ctx.Value .metadataCallbackKey) = some callback →
      CallIncomingCallback ctx md s = callback md s) ∧
    (∀ (cs : List (MetadataCallback σ)),
      CallIncomingCallback (cs.foldl WithIncomingCallback ctx) [] s = s) := by
  refine ⟨?_, ?_, ?_, ?_⟩
  · intro h
    unfold CallIncomingCallback
    rw [if_pos h]
  · intro h
    unfold CallIncomingCallback
    rw [h]
    split <;> rfl
  · intro callback hmd h
    unfold CallIncomingCallback
    rw [if_neg hmd, h]
  · intro cs
    rfl

/-- Witness for C19: a counting callback is attached; empty metadata leaves the counter at 0,
one entry of metadata makes it 1, and without a callback it stays 0. -/
theorem CallIncomingCallback_guards_witness :
    CallIncomingCallback (WithIncomingCallback .background (fun _ n => n + 1)) [] (0 : Nat) = 0 ∧
    CallIncomingCallback (WithIncomingCallback .background (fun _ n => n + 1))
      [("x-request-id", ["1"])] (0 : Nat) = 1 ∧
    CallIncomingCallback (Context.background : Context Nat) [("x-request-id", ["1"])] 0 = 0 :=
  ⟨(CallIncomingCallback_guards (WithIncomingCallback .background (fun _ n => n + 1)) [] 0).1 rfl,
    (CallIncomingCallback_guards (WithIncomingCallback .background (fun _ n => n + 1))
      [("x-request-id", ["1"])] 0).2.2.1 (fun _ n => n + 1) (by decide) rfl,
    (CallIncomingCallback_guards Context.background [("x-request-id", ["1"])] 0).2.1 rfl⟩

/-! ## Connect options -/

/-- Claim C15: the description that `WithAccessTokenCredentials` and `NewAuthTokenCredentials`
pass to the internal credentials constructor is one fixed string, the same for every two
access tokens `a` and `b`: whatever the internal constructor is, it receives the token as
first and the fixed string as second argument, and that is the credentials object the option
stores. With the constructor that records its arguments, the recorded description of the two
objects is the same. -/
theorem accessToken_description_fixed (internalNew : String → String → Credentials)
    (a b : String) (st : ClientState) (p : Nat)
    (hp : st.client.options.driverConfig = some p) :
    NewAuthTokenCredentials internalNew a =
      internalNew a "connect.NewAuthTokenCredentials(accessToken)" ∧
    NewAuthTokenCredentials internalNew b =
      internalNew b "connect.NewAuthTokenCredentials(accessToken)" ∧
    (∃ sa sb,
      (WithAccessTokenCredentials internalNew a : DbOption Unit) () st = .ok (none, sa) ∧
      (WithAccessTokenCredentials internalNew b : DbOption Unit) () st = .ok (none, sb) ∧
      (sa.heap.config p).Credentials =
        some (internalNew a "connect.WithAccessTokenCredentials(accessToken)") ∧
      (sb.heap.config p).Credentials =
        some (internalNew b "connect.WithAccessTokenCredentials(accessToken)")) ∧
    (NewAuthTokenCredentials Credentials.authToken a).sourceInfo =
      some "connect.NewAuthTokenCredentials(accessToken)" ∧
    (NewAuthTokenCredentials Credentials.authToken a).sourceInfo =
      (NewAuthTokenCredentials Credentials.authToken b).sourceInfo := by
  refine ⟨rfl, rfl, ?_, rfl, rfl⟩
  simp only [WithAccessTokenCredentials, WithCredentials, WithCreateCredentialsFunc, hp]
  exact ⟨_, _, rfl, rfl, by simp, by simp⟩

/-- Witness for C15 on `exampleClient` with the recording constructor and two tokens. -/
theorem accessToken_description_fixed_witness :
    (NewAuthTokenCredentials Credentials.authToken "t1").sourceInfo =
      (NewAuthTokenCredentials Credentials.authToken "another-token").sourceInfo :=
  (accessToken_description_fixed Credentials.authToken "t1" "another-token" exampleClient 0
    rfl).2.2.2.2

/-- Claim C16: on a client with a non-nil driver config, the option of
`WithCreateCredentialsFunc(f)` returns an error if and only if `f(ctx)` does, and then it
returns that error and leaves the client and the heap as they were; when `f` returns
`(cred, nil)` it returns `nil`, sets `driverConfig.Credentials` to `cred` and changes nothing
else. `WithCredentials(c)` is the option of the constant factory and returns `nil`. -/
theorem WithCreateCredentialsFunc_error_iff {κ : Type}
    (f : κ → Option Credentials × Option GoError) (ctx : κ) (st : ClientState) (p : Nat)
    (hp : st.client.options.driverConfig = some p) :
    (∃ st', WithCreateCredentialsFunc f ctx st = .ok ((f ctx).2, st') ∧
      ((f ctx).2 ≠ none → st' = st) ∧
      ((f ctx).2 = none →
        st'.client = st.client ∧
        st'.heap.tlsConfig = st.heap.tlsConfig ∧ st'.heap.tlsNext = st.heap.tlsNext ∧
        st'.heap.config p = { st.heap.config p with Credentials := (f ctx).1 } ∧
        ∀ q, q ≠ p → st'.heap.config q = st.heap.config q)) ∧
    (∀ c : Option Credentials,
      (WithCredentials c : DbOption κ) = WithCreateCredentialsFunc (fun _ => (c, none)) ∧
      ∃ st', (WithCredentials c : DbOption κ) ctx st = .ok (none, st') ∧
        st'.credentials = .ok c) := by
  constructor
  · unfold WithCreateCredentialsFunc
    rcases hf : f ctx with ⟨cred, _ | err⟩
    · simp only [hp]
      refine ⟨_, rfl, fun h => absurd rfl h, fun _ => ⟨rfl, rfl, rfl, ?_, ?_⟩⟩
      · simp
      · intro q hq
        simp [Function.update_noteq hq]
    · exact ⟨st, rfl, fun _ => rfl, fun h => by cases h⟩
  · intro c
    refine ⟨rfl, ?_⟩
    simp only [WithCredentials, WithCreateCredentialsFunc, hp]
    exact ⟨_, rfl, by simp [ClientState.credentials, hp]⟩

/-- Witness for C16 on `exampleClient` with a factory that fails. -/
theorem WithCreateCredentialsFunc_error_iff_witness :
    ∃ st', WithCreateCredentialsFunc (fun (_ : Unit) => (none, some ⟨"no token"⟩)) ()
        exampleClient = .ok (some ⟨"no token"⟩, st') ∧
      ((some ⟨"no token"⟩ : Option GoError) ≠ none → st' = exampleClient) :=
  match (WithCreateCredentialsFunc_error_iff
      (fun (_ : Unit) => ((none : Option Credentials), some (⟨"no token"⟩ : GoError))) ()
      exampleClient 0 rfl).1 with
  | ⟨st', h1, h2, _⟩ => ⟨st', h1, h2⟩

/-- Claim C17: the option of `WithCertificates(p)` returns `nil` and leaves
`options.tlsConfig` non-nil with `RootCAs = p`. A TLS config that was already set stays the
same object with all fields but `RootCAs` unchanged; if none was set the new config has every
other field at its zero value. Every option other than `tlsConfig`, every driver config and
every other TLS config object is unchanged. -/
theorem WithCertificates_sets_RootCAs {κ : Type} (certPool : Option Nat) (ctx : κ)
    (st : ClientState) :
    ∃ st' t, WithCertificates certPool ctx st = .ok (none, st') ∧
      st'.client.options.tlsConfig = some t ∧
      (st'.heap.tlsConfig t).RootCAs = certPool ∧
      (∀ t0, st.client.options.tlsConfig = some t0 →
        t = t0 ∧ st'.heap.tlsConfig t = { st.heap.tlsConfig t0 with RootCAs := certPool }) ∧
      (st.client.options.tlsConfig = none →
        st'.heap.tlsConfig t = { TLSConfig.zero with RootCAs := certPool }) ∧
      st'.client.options = { st.client.options with tlsConfig := some t } ∧
      st'.heap.config = st.heap.config ∧
      (∀ q, q ≠ t → st'.heap.tlsConfig q = st.heap.tlsConfig q) := by
  unfold WithCertificates
  cases h : st.client.options.tlsConfig with
  | none =>
    refine ⟨_, st.heap.tlsNext, rfl, rfl, ?_, ?_, ?_, rfl, rfl, ?_⟩
    · simp
    · intro t0 h0; cases h0
    · intro _; simp
    · intro q hq; simp [Function.update_noteq hq]
  | some t0 =>
    refine ⟨_, t0, rfl, h, ?_, ?_, ?_, ?_, rfl, ?_⟩
    · simp
    · intro t1 h1
      cases h1
      exact ⟨rfl, by simp⟩
    · intro h0; cases h0
    · rw [← h]
    · intro q hq; simp [Function.update_noteq hq]

/-- Claim C18: the option of `WithDriverConfig(cfg)` returns `nil` and makes
`options.driverConfig` exactly `cfg` on every client, without touching anything else. So
after `WithCredentials(c)` then `WithDriverConfig(cfg)` the client's credentials are those of
`cfg`, which the earlier option did not write to when `cfg` is another object than the
previous driver config; after `WithDriverConfig(cfg)` then `WithCredentials(c)` they are `c`.
On `exampleClient` with `cfg` the object at address 1 the two orders end with different
credentials. -/
theorem WithDriverConfig_replaces {κ : Type} (ctx : κ) (st : ClientState) (p cfg : Nat)
    (c : Option Credentials) (hp : st.client.options.driverConfig = some p) :
    (∀ (st0 : ClientState) (config : Option Nat),
      (WithDriverConfig config : DbOption κ) ctx st0 =
        .ok (none, { st0 with client :=
          { options := { st0.client.options with driverConfig := config } } })) ∧
    (∃ st', ((WithCredentials c).andThen (WithDriverConfig (some cfg)) : DbOption κ) ctx st =
        .ok (none, st') ∧
      st'.client.options.driverConfig = some cfg ∧
      st'.credentials = .ok (st'.heap.config cfg).Credentials ∧
      (cfg ≠ p → st'.heap.config cfg = st.heap.config cfg)) ∧
    (∃ st', ((WithDriverConfig (some cfg)).andThen (WithCredentials c) : DbOption κ) ctx st =
        .ok (none, st') ∧
      st'.client.options.driverConfig = some cfg ∧
      st'.credentials = .ok c) ∧
    (∃ s1 s2,
      ((WithCredentials (some (.custom 7))).andThen (WithDriverConfig (some 1)) : DbOption Unit)
        () exampleClient = .ok (none, s1) ∧
      ((WithDriverConfig (some 1)).andThen (WithCredentials (some (.custom 7))) : DbOption Unit)
        () exampleClient = .ok (none, s2) ∧
      s1.credentials = .ok none ∧ s2.credentials = .ok (some (.custom 7))) := by
  refine ⟨fun _ _ => rfl, ?_, ?_, ?_⟩
  · simp only [DbOption.andThen, WithCredentials, WithCreateCredentialsFunc, hp, WithDriverConfig]
    refine ⟨_, rfl, rfl, rfl, ?_⟩
    intro h
    simp [Function.update_noteq h]
  · simp only [DbOption.andThen, WithCredentials, WithCreateCredentialsFunc, WithDriverConfig]
    exact ⟨_, rfl, rfl, by simp [ClientState.credentials]⟩
  · simp only [DbOption.andThen, WithCredentials, WithCreateCredentialsFunc, WithDriverConfig,
      exampleClient]
    exact ⟨_, _, rfl, rfl, by simp [ClientState.credentials],
      by simp [ClientState.credentials]⟩

/-- Witness for C18 on `exampleClient`, whose driver config is the object at address 0, and
the object at address 1 as the new config. -/
theorem WithDriverConfig_replaces_witness :
    ∃ st', ((WithDriverConfig (some 1)).andThen (WithCredentials (some (.custom 7))) :
        DbOption Unit) () exampleClient = .ok (none, st') ∧
      st'.client.options.driverConfig = some 1 ∧
      st'.credentials = .ok (some (.custom 7)) :=
  (WithDriverConfig_replaces () exampleClient 0 1 (some (.custom 7)) rfl).2.2.1

/-- Claim C20: each of the eight scalar option setters returns `nil`, sets its own field of
`options` to the given value and leaves every other field, and the heap, unchanged; so two
setters of different fields commute, and the same setter applied with `a` and then `b` gives
what applying it once with `b` gives. -/
theorem scalar_setters_frame {κ : Type} (ctx : κ) (st : ClientState) (v : Int) :
    ((WithDialTimeout v : DbOption κ) ctx st = .ok (none, { st with client :=
      { options := { st.client.options with dialTimeout := v } } })) ∧
    ((WithDiscoveryInterval v : DbOption κ) ctx st = .ok (none, { st with client :=
      { options := { st.client.options with discoveryInterval := some v } } })) ∧
    ((WithSessionPoolSizeLimit v : DbOption κ) ctx st = .ok (none, { st with client :=
      { options := { st.client.options with tableSessionPoolSizeLimit := some v } } })) ∧
    ((WithSessionPoolKeepAliveMinSize v : DbOption κ) ctx st = .ok (none, { st with client :=
      { options := { st.client.options with tableSessionPoolKeepAliveMinSize := some v } } })) ∧
    ((WithSessionPoolIdleThreshold v : DbOption κ) ctx st = .ok (none, { st with client :=
      { options := { st.client.options with tableSessionPoolIdleThreshold := some v } } })) ∧
    ((WithSessionPoolKeepAliveTimeout v : DbOption κ) ctx st = .ok (none, { st with client :=
      { options := { st.client.options with tableSessionPoolKeepAliveTimeout := some v } } })) ∧
    ((WithSessionPoolCreateSessionTimeout v : DbOption κ) ctx st = .ok (none, { st with client :=
      { options :=
        { st.client.options with tableSessionPoolCreateSessionTimeout := some v } } })) ∧
    ((WithSessionPoolDeleteTimeout v : DbOption κ) ctx st = .ok (none, { st with client :=
      { options := { st.client.options with tableSessionPoolDeleteTimeout := some v } } })) ∧
    (∀ x y : ScalarSetter, x.field ≠ y.field →
      (x.option.andThen y.option : DbOption κ) ctx st =
        (y.option.andThen x.option : DbOption κ) ctx st) ∧
    (∀ x y : ScalarSetter, x.field = y.field →
      (x.option.andThen y.option : DbOption κ) ctx st = (y.option : DbOption κ) ctx st) := by
  refine ⟨rfl, rfl, rfl, rfl, rfl, rfl, rfl, rfl, ?_, ?_⟩
  · intro x y h
    cases x <;> cases y <;> first | exact absurd rfl h | rfl
  · intro x y h
    cases x <;> cases y <;> first | rfl | (simp [ScalarSetter.field] at h)

/-- Witness for C20: `WithDialTimeout` and `WithSessionPoolSizeLimit` commute on
`exampleClient`, and `WithDialTimeout(5)` then `WithDialTimeout(9)` is `WithDialTimeout(9)`. -/
theorem scalar_setters_frame_witness :
    ((WithDialTimeout 5).andThen (WithSessionPoolSizeLimit 100) : DbOption Unit) ()
        exampleClient =
      ((WithSessionPoolSizeLimit 100).andThen (WithDialTimeout 5) : DbOption Unit) ()
        exampleClient ∧
    ((WithDialTimeout 5).andThen (WithDialTimeout 9) : DbOption Unit) () exampleClient =
      (WithDialTimeout 9 : DbOption Unit) () exampleClient :=
  ⟨(scalar_setters_frame () exampleClient 0).2.2.2.2.2.2.2.2.1
      (.dialTimeout 5) (.sessionPoolSizeLimit 100) (by decide),
    (scalar_setters_frame () exampleClient 0).2.2.2.2.2.2.2.2.2
      (.dialTimeout 5) (.dialTimeout 9) rfl⟩

end Ydb
